import Mathlib

/-!
# sssocks: proxy validation pipeline and forwarding gateway

A shallow embedding of `main.go` (package `main`): `testProxy`, the validation
phase of `main` (launcher loop, worker goroutines, closer goroutine, consumer
loop) and `handleConnection`.

Conventions of the embedding.

* A Go `string` is a Lean `String`: the fetched body and the candidates are taken to be
  valid UTF-8.  The two separators the program splits on, `":"` and `"\n"`, are single
  ASCII bytes, which never occur inside a multi-byte character, so that splitting on bytes
  and on characters agree; they are passed as a `Char`.
* An effectful function is the list of operations it performs, in program order
  (`Op` for the goroutines of the validation phase, `HEv` for the gateway).
* Whatever the outside world decides (the answer to the reachability request,
  the result of an `INSERT`, the random row, the dial results) is an oracle
  argument or the label of a transition.
* Goroutines are interleaved by a labelled transition function `step`; a
  schedule is a list of labels and `run` executes one.
-/

namespace Sssocks

/-! ## `strings.Split` -/

/-- The pieces of `cs` between the occurrences of `sep`, in order: the character
level of `strings.Split(s, sep)` for a one-byte separator. -/
def splitChars (sep : Char) : List Char → List (List Char)
  | [] => [[]]
  | c :: cs =>
    if c = sep then [] :: splitChars sep cs
    else
      match splitChars sep cs with
      | [] => [[c]]
      | p :: ps => (c :: p) :: ps

/-- Go `strings.Split(s, sep)` for a one-byte separator `sep`. -/
def stringsSplit (s : String) (sep : Char) : List String :=
  (splitChars sep s.data).map String.mk

/-- The inverse of `splitChars`: the pieces with `sep` put back between them. -/
def joinChars (sep : Char) : List (List Char) → List Char
  | [] => []
  | [p] => p
  | p :: q :: r => p ++ sep :: joinChars sep (q :: r)

/-! ## `testProxy` (main.go lines 22-59) -/

/-- The pair `(resp, err)` returned by `client.Get`: either `err != nil`, or a
response carrying `resp.StatusCode`. -/
inductive GetResult where
  | failed
  | response (status : Int)
  deriving DecidableEq, Repr

/-- The operations a goroutine of the validation phase performs. -/
inductive Op where
  /-- lines 34-51: dialer, transport and `http.Client` tunnelling through
  `socks5://proxyAddr`. -/
  | newClient (proxyAddr : String)
  /-- line 54: `client.Get(url)`. -/
  | httpGet (url : String)
  /-- line 56: `results <- v`. -/
  | send (v : String)
  /-- line 57: `resp.Body.Close()`. -/
  | closeBody
  /-- line 23: the deferred `wg.Done()`. -/
  | wgDone
  /-- line 185: the deferred `<-semaphore` of the goroutine started by `main`. -/
  | semRelease
  deriving DecidableEq, Repr

/-- The body of `testProxy(proxy, wg, results)` as the list of operations it performs.
`get addr` is the outcome of the GET issued through the SOCKS5 proxy `addr`. -/
def testProxy (get : String → GetResult) (proxy : String) : List Op :=
  let parts := stringsSplit proxy ':'
  if parts.length ≠ 2 then
    [Op.wgDone]
  else
    let host := parts.getD 0 ""
    let port := parts.getD 1 ""
    let addr := host ++ ":" ++ port
    [Op.newClient addr, Op.httpGet "http://ifconfig.me"] ++
      (match get addr with
        | GetResult.response status =>
          if status = 200 then [Op.send proxy, Op.closeBody] else []
        | GetResult.failed => []) ++
      [Op.wgDone]

/-- The value carried by a channel send. -/
def Op.sent? : Op → Option String
  | Op.send v => some v
  | _ => none

/-- The values a list of operations puts on the result channel, in order. -/
def emitted (ops : List Op) : List String :=
  ops.filterMap Op.sent?

/-- Whether an operation touches the network: building the client or issuing the GET. -/
def Op.isNetwork : Op → Bool
  | Op.newClient _ => true
  | Op.httpGet _ => true
  | _ => false

/-- Wording of the data model: the candidate splits on `':'` into exactly two parts,
both of them non-empty. -/
def twoNonEmptyParts (p : String) : Prop :=
  ∃ host port, stringsSplit p ':' = [host, port] ∧ host ≠ "" ∧ port ≠ ""

/-! ## The validation phase of `main` (main.go lines 156-205) -/

/-- Capacity of the admission gate: `semaphore := make(chan struct{}, 50)`, line 160. -/
def semCap : Nat := 50

/-- The goroutine started at lines 184-187: `testProxy(p, &wg, results)` followed by the
deferred `<-semaphore`. -/
def goroutine (get : String → GetResult) (p : String) : List Op :=
  testProxy get p ++ [Op.semRelease]

/-- Where the main goroutine stands. -/
inductive MainPc where
  /-- line 178: head of `for _, proxy := range proxyList`, with the elements still to visit. -/
  | launch (rest : List String)
  /-- line 183: `wg.Add(1)` is done, `semaphore <- struct{}{}` is next. -/
  | acquire (p : String) (rest : List String)
  /-- line 196: `for result := range results`, waiting for the next value. -/
  | recv
  /-- line 198: `db.Exec("INSERT ...", v)` is next. -/
  | insert (v : String)
  /-- line 208: the validation phase is over, `startProxyServer(db)` is next. -/
  | serve
  deriving DecidableEq, Repr

/-- Where the goroutine of lines 190-193 stands. -/
inductive CloserPc where
  /-- the `go` statement of line 190 has not run yet. -/
  | notStarted
  /-- line 191: blocked in `wg.Wait()`. -/
  | waiting
  /-- after `wg.Wait()` has returned, `close(results)` is next. -/
  | woken
  /-- after `close(results)`. -/
  | finished
  deriving DecidableEq, Repr

/-- What the consumer loop prints, lines 199-203. -/
inductive LogLine where
  | inserted (row : String)
  | insertFailed (row : String)
  deriving DecidableEq, Repr

/-- The row a log line is about. -/
def LogLine.row : LogLine → String
  | LogLine.inserted r => r
  | LogLine.insertFailed r => r

/-- The row of a log line that reports success. -/
def LogLine.stored? : LogLine → Option String
  | LogLine.inserted r => some r
  | LogLine.insertFailed _ => none

/-- The row of a log line that reports a failed `INSERT`. -/
def LogLine.failed? : LogLine → Option String
  | LogLine.inserted _ => none
  | LogLine.insertFailed r => some r

/-- State of the validation phase. -/
structure VState where
  /-- the main goroutine. -/
  main : MainPc
  /-- the goroutine that waits and closes. -/
  closer : CloserPc
  /-- the operations each launched goroutine still has to perform, in launch order. -/
  workers : List (List Op)
  /-- the number of slots taken, `len(semaphore)`. -/
  semaphore : Nat
  /-- the counter of `wg`. -/
  wg : Nat
  /-- the values buffered in `results`, oldest first. -/
  results : List String
  /-- the capacity `cap(results)`, fixed at line 157. -/
  resultsCap : Nat
  /-- whether `results` has been closed. -/
  closed : Bool
  /-- instrumentation: how many sends on `results` have completed. -/
  sent : Nat
  /-- instrumentation: how many times `close(results)` has been executed. -/
  closes : Nat
  /-- the rows of table `proxies`, in insertion order. -/
  pool : List String
  /-- standard output. -/
  stdout : List LogLine
  deriving DecidableEq, Repr

/-- The state at line 178, before the first iteration: `proxyList` is the body split on
newlines, `results` has one buffer slot per element of `proxyList`, the database file was
removed and the table created empty. -/
def init (body : String) : VState :=
  { main := MainPc.launch (stringsSplit body '\n')
    closer := CloserPc.notStarted
    workers := []
    semaphore := 0
    wg := 0
    results := []
    resultsCap := (stringsSplit body '\n').length
    closed := false
    sent := 0
    closes := 0
    pool := []
    stdout := [] }

/-- Which goroutine moves, and for an `INSERT` whether it succeeds. -/
inductive Label where
  /-- the main goroutine performs its next operation (other than the `INSERT`). -/
  | main
  /-- the main goroutine performs the `INSERT` of line 198; `ok` is `err == nil`. -/
  | insert (ok : Bool)
  /-- the `i`-th launched goroutine performs its next operation. -/
  | worker (i : Nat)
  /-- the closer goroutine performs its next operation. -/
  | closer
  deriving DecidableEq, Repr

/-- One operation of the main goroutine; `none` when it is blocked. -/
def stepMain (net : Nat → String → GetResult) (s : VState) : Option VState :=
  match s.main with
  | MainPc.launch [] =>
    some { s with closer := CloserPc.waiting, main := MainPc.recv }
  | MainPc.launch (p :: rest) =>
    if p = "" then some { s with main := MainPc.launch rest }
    else some { s with wg := s.wg + 1, main := MainPc.acquire p rest }
  | MainPc.acquire p rest =>
    if s.semaphore < semCap then
      some { s with
        semaphore := s.semaphore + 1
        workers := s.workers ++ [goroutine (net s.workers.length) p]
        main := MainPc.launch rest }
    else none
  | MainPc.recv =>
    match s.results with
    | v :: vs =>
      some { s with results := vs, main := if v ≠ "" then MainPc.insert v else MainPc.recv }
    | [] => if s.closed then some { s with main := MainPc.serve } else none
  | MainPc.insert _ => none
  | MainPc.serve => none

/-- The `INSERT` of line 198 with its outcome, and the message printed for it. -/
def stepInsert (s : VState) (ok : Bool) : Option VState :=
  match s.main with
  | MainPc.insert v =>
    if ok then
      some { s with
        pool := s.pool ++ [v]
        stdout := s.stdout ++ [LogLine.inserted v]
        main := MainPc.recv }
    else
      some { s with stdout := s.stdout ++ [LogLine.insertFailed v], main := MainPc.recv }
  | _ => none

/-- One operation of the `i`-th launched goroutine; `none` when there is no such goroutine,
it has exited, it is blocked, or the operation would panic (a send on a closed channel, a
negative `WaitGroup` counter). -/
def stepWorker (s : VState) (i : Nat) : Option VState :=
  match s.workers[i]? with
  | some (op :: tl) =>
    match op with
    | Op.send v =>
      if s.closed = false ∧ s.results.length < s.resultsCap then
        some { s with
          results := s.results ++ [v]
          sent := s.sent + 1
          workers := s.workers.set i tl }
      else none
    | Op.wgDone =>
      if 0 < s.wg then some { s with wg := s.wg - 1, workers := s.workers.set i tl }
      else none
    | Op.semRelease =>
      if 0 < s.semaphore then
        some { s with semaphore := s.semaphore - 1, workers := s.workers.set i tl }
      else none
    | _ => some { s with workers := s.workers.set i tl }
  | _ => none

/-- One operation of the closer goroutine: `wg.Wait()` returns once the counter is zero,
then `close(results)`. -/
def stepCloser (s : VState) : Option VState :=
  match s.closer with
  | CloserPc.waiting => if s.wg = 0 then some { s with closer := CloserPc.woken } else none
  | CloserPc.woken =>
    if s.closed then none
    else some { s with closed := true, closes := s.closes + 1, closer := CloserPc.finished }
  | _ => none

/-- The labelled transition function of the validation phase. `net k addr` is the outcome
of the GET that the `k`-th launched goroutine issues through `addr`. -/
def step (net : Nat → String → GetResult) (s : VState) : Label → Option VState
  | Label.main => stepMain net s
  | Label.insert ok => stepInsert s ok
  | Label.worker i => stepWorker s i
  | Label.closer => stepCloser s

/-- Execute a schedule; `none` when one of its labels is not enabled. -/
def run (net : Nat → String → GetResult) (s : VState) : List Label → Option VState
  | [] => some s
  | l :: ls => (step net s l).bind (fun t => run net t ls)

/-- States the validation phase can be in, for the fetched `body` and the oracle `net`. -/
def Reachable (net : Nat → String → GetResult) (body : String) (s : VState) : Prop :=
  ∃ ls, run net (init body) ls = some s

/-! ## Reading a state of the validation phase -/

/-- Every pending operation of every goroutine. -/
def allOps : List (List Op) → List Op
  | [] => []
  | w :: ws => w ++ allOps ws

/-- Number of launched goroutines that have not exited: they hold a slot of the gate. -/
def running (s : VState) : Nat :=
  s.workers.countP (fun w => !w.isEmpty)

/-- Number of launched tests that have not finished: `testProxy` has not yet signalled
completion with `wg.Done()`. -/
def unfinished (s : VState) : Nat :=
  s.workers.countP (fun w => w.contains Op.wgDone)

/-! ## The invariant and the termination measure -/

/-- Shape of a goroutine: what is left of it is the tail end of a `goroutine`. -/
def WF (w : List Op) : Prop :=
  ∃ get p, w <:+ goroutine get p

/-- Whether `wg.Add(1)` has been done for a goroutine that is not launched yet. -/
def MainPc.acquiring : MainPc → Nat
  | MainPc.acquire _ _ => 1
  | _ => 0

/-- Number of elements of `proxyList` the launcher loop has not dealt with yet. -/
def MainPc.toVisit : MainPc → Nat
  | MainPc.launch rest => rest.length
  | MainPc.acquire _ rest => rest.length + 1
  | _ => 0

/-- Whether the main goroutine is still in the launcher loop. -/
def MainPc.launching : MainPc → Bool
  | MainPc.launch _ => true
  | MainPc.acquire _ _ => true
  | _ => false

/-- The value received from `results` and not yet inserted. -/
def MainPc.inserting : MainPc → List String
  | MainPc.insert v => [v]
  | _ => []

/-- Wording of the specification of the pool: of the non-empty lines `ps`, numbered from `k`
in launch order, those that split on `':'` into two parts and whose reachability request
came back with status 200. -/
def passing (net : Nat → String → GetResult) : Nat → List String → List String
  | _, [] => []
  | k, p :: ps =>
    if p = "" then passing net k ps
    else
      (if (stringsSplit p ':').length = 2 ∧ net k p = GetResult.response 200 then [p]
        else []) ++ passing net (k + 1) ps

/-- What the elements the launcher loop has not dealt with yet will contribute, when
`k` goroutines have been launched. -/
def MainPc.upcoming (net : Nat → String → GetResult) (k : Nat) : MainPc → List String
  | MainPc.launch rest => passing net k rest
  | MainPc.acquire p rest => passing net k (p :: rest)
  | _ => []

/-- Every value that is somewhere between a successful test and the end of its `INSERT`,
or past it: logged, being inserted, buffered, about to be sent, or not launched yet. -/
def VState.bag (net : Nat → String → GetResult) (s : VState) : Multiset String :=
  (s.stdout.map LogLine.row : Multiset String) + (s.main.inserting : Multiset String) +
    (s.results : Multiset String) + (emitted (allOps s.workers) : Multiset String) +
    (s.main.upcoming net s.workers.length : Multiset String)

/-- The invariant of the validation phase. -/
structure Inv (net : Nat → String → GetResult) (body : String) (s : VState) : Prop where
  wf : ∀ w ∈ s.workers, WF w
  sem_eq : s.semaphore = (allOps s.workers).count Op.semRelease
  sem_le : s.semaphore ≤ semCap
  wg_eq : s.wg = (allOps s.workers).count Op.wgDone + s.main.acquiring
  closer_started : s.closer = CloserPc.notStarted ↔ s.main.launching = true
  woken_wg : s.closer = CloserPc.woken ∨ s.closer = CloserPc.finished → s.wg = 0
  closed_iff : s.closed = true ↔ s.closer = CloserPc.finished
  cap_eq : s.resultsCap = (stringsSplit body '\n').length
  cap_ge : s.workers.length + s.main.toVisit ≤ s.resultsCap
  sent_le : s.sent + (emitted (allOps s.workers)).length ≤ s.workers.length
  results_le : s.results.length ≤ s.sent
  acquire_ne : ∀ p rest, s.main = MainPc.acquire p rest → p ≠ ""
  two_parts : ∀ v, v ∈ s.results ∨ v ∈ s.stdout.map LogLine.row ∨ v ∈ s.main.inserting →
    (stringsSplit v ':').length = 2
  pool_eq : s.pool = s.stdout.filterMap LogLine.stored?
  closes_eq : s.closes = if s.closed then 1 else 0
  serve_done : s.main = MainPc.serve → s.closed = true ∧ s.results = []
  bag_eq : s.bag net = (passing net 0 (stringsSplit body '\n') : Multiset String)

/-- Steps an operation still costs: itself, and for a send the receive and the `INSERT`
of the value. -/
def Op.weight : Op → Nat
  | Op.send _ => 3
  | _ => 1

/-- Steps the main goroutine still costs, with the goroutines it has yet to launch. -/
def MainPc.weight : MainPc → Nat
  | MainPc.launch rest => 12 * rest.length + 4
  | MainPc.acquire _ rest => 12 * rest.length + 15
  | MainPc.recv => 1
  | MainPc.insert _ => 2
  | MainPc.serve => 0

/-- Steps the closer goroutine still costs. -/
def CloserPc.weight : CloserPc → Nat
  | CloserPc.notStarted => 2
  | CloserPc.waiting => 2
  | CloserPc.woken => 1
  | CloserPc.finished => 0

/-- A bound on the number of steps the validation phase can still take. -/
def VState.measure (s : VState) : Nat :=
  s.main.weight + s.closer.weight + 2 * s.results.length +
    ((allOps s.workers).map Op.weight).sum

/-- The `k`-th `INSERT` of the run succeeded exactly when `pat k` says so. -/
def followsPattern (pat : Nat → Bool) (out : List LogLine) : Prop :=
  out.map (fun l => l.stored?.isSome) = (List.range out.length).map pat

/-! ## `handleConnection` (main.go lines 81-130) -/

/-- The messages `handleConnection` logs. -/
inductive LogMsg where
  /-- line 89. -/
  | noAvailableProxy
  /-- line 95. -/
  | invalidProxyFormat
  /-- line 105. -/
  | socks5Failed (host port : String)
  /-- line 112. -/
  | dialFailed
  /-- line 122. -/
  | forwardRequestError
  /-- line 128. -/
  | forwardResponseError
  deriving DecidableEq, Repr

/-- What a relay session does, as seen from outside. -/
inductive HEv where
  | log (msg : LogMsg)
  /-- line 103: `proxy1.SOCKS5("tcp", addr, nil, proxy1.Direct)`. -/
  | socks5 (addr : String)
  /-- line 110: `dialer.Dial("tcp", target)`. -/
  | dial (target : String)
  /-- line 120: `n` bytes copied from the inbound connection to the tunnel. -/
  | copiedUp (n : Nat)
  /-- line 126: `n` bytes copied from the tunnel to the inbound connection. -/
  | copiedDown (n : Nat)
  /-- line 115, deferred: `targetConn.Close()`. -/
  | closeTarget
  /-- line 82, deferred: `conn.Close()`. -/
  | closeConn
  deriving DecidableEq, Repr

/-- What the outside world decides for one inbound connection. -/
structure ConnEnv where
  /-- the random order of `ORDER BY RANDOM()`. -/
  rand : Nat
  /-- the string `conn.RemoteAddr().String()`. -/
  remoteAddr : String
  /-- whether `proxy1.SOCKS5` returns a nil error for this proxy address. -/
  socks5Ok : String → Bool
  /-- whether `dialer.Dial` through this proxy address to this target succeeds. -/
  dialOk : String → String → Bool

/-- The query `SELECT proxy FROM proxies ORDER BY RANDOM() LIMIT 1` and `row.Scan`: one of the
stored rows, or `none` (`sql.ErrNoRows`) when the table is empty. -/
def sampleOne (pool : List String) (rand : Nat) : Option String :=
  pool[rand % pool.length]?

/-- State of a relay session. -/
structure Session where
  /-- what has happened so far. -/
  trace : List HEv
  /-- whether the goroutine of lines 118-124 is inside `io.Copy(targetConn, conn)`. -/
  upRunning : Bool
  /-- whether `handleConnection` is inside `io.Copy(conn, targetConn)`, line 126. -/
  downRunning : Bool
  /-- whether `handleConnection` has returned. -/
  returned : Bool
  /-- whether the inbound connection is open. -/
  connOpen : Bool
  /-- whether the outbound tunnel exists and is open. -/
  targetOpen : Bool
  deriving DecidableEq, Repr

/-- A session whose handler has returned without a tunnel, after the given events and the
deferred `conn.Close()`. -/
def Session.aborted (evs : List HEv) : Session :=
  { trace := evs ++ [HEv.closeConn]
    upRunning := false
    downRunning := false
    returned := true
    connOpen := false
    targetOpen := false }

/-- The function `handleConnection(conn, db)` up to the point where both copy loops run
(lines 81-126),
or to its return when it gives up before. -/
def handleConnection (env : ConnEnv) (pool : List String) : Session :=
  match sampleOne pool env.rand with
  | none => Session.aborted [HEv.log LogMsg.noAvailableProxy]
  | some proxy =>
    let parts := stringsSplit proxy ':'
    if parts.length ≠ 2 then
      Session.aborted [HEv.log LogMsg.invalidProxyFormat]
    else
      let host := parts.getD 0 ""
      let port := parts.getD 1 ""
      let addr := host ++ ":" ++ port
      if env.socks5Ok addr = false then
        Session.aborted [HEv.socks5 addr, HEv.log (LogMsg.socks5Failed host port)]
      else if env.dialOk addr env.remoteAddr = false then
        Session.aborted [HEv.socks5 addr, HEv.dial env.remoteAddr, HEv.log LogMsg.dialFailed]
      else
        { trace := [HEv.socks5 addr, HEv.dial env.remoteAddr]
          upRunning := true
          downRunning := true
          returned := false
          connOpen := true
          targetOpen := true }

/-- What can happen next in a relay session. -/
inductive RelayLabel where
  /-- the goroutine's `io.Copy(targetConn, conn)` moves `n` bytes. -/
  | upCopy (n : Nat)
  /-- the handler's `io.Copy(conn, targetConn)` moves `n` bytes. -/
  | downCopy (n : Nat)
  /-- the goroutine's `io.Copy` returns: `failed = false` at EOF, `true` on an error. -/
  | upEnds (failed : Bool)
  /-- the handler's `io.Copy` returns: `failed = false` at EOF, `true` on an error. -/
  | downEnds (failed : Bool)
  deriving DecidableEq, Repr

/-- One step of a relay session (lines 118-130). The goroutine logs an error and exits;
`handleConnection` logs an error, returns, and its deferred calls close the tunnel and then
the inbound connection. -/
def relayStep (s : Session) : RelayLabel → Option Session
  | RelayLabel.upCopy n =>
    if s.upRunning ∧ s.connOpen ∧ s.targetOpen then
      some { s with trace := s.trace ++ [HEv.copiedUp n] }
    else none
  | RelayLabel.downCopy n =>
    if s.downRunning ∧ s.connOpen ∧ s.targetOpen then
      some { s with trace := s.trace ++ [HEv.copiedDown n] }
    else none
  | RelayLabel.upEnds failed =>
    if s.upRunning then
      some { s with
        upRunning := false
        trace := s.trace ++ (if failed then [HEv.log LogMsg.forwardRequestError] else []) }
    else none
  | RelayLabel.downEnds failed =>
    if s.downRunning then
      some { s with
        downRunning := false
        returned := true
        connOpen := false
        targetOpen := false
        trace := s.trace ++ (if failed then [HEv.log LogMsg.forwardResponseError] else []) ++
          [HEv.closeTarget, HEv.closeConn] }
    else none

/-- Execute a sequence of relay steps; `none` when one of them is not enabled. -/
def relayRun (s : Session) : List RelayLabel → Option Session
  | [] => some s
  | l :: ls => (relayStep s l).bind (fun t => relayRun t ls)

/-- Whether an event creates a dialer, dials, or moves bytes. -/
def HEv.isTraffic : HEv → Bool
  | HEv.socks5 _ => true
  | HEv.dial _ => true
  | HEv.copiedUp _ => true
  | HEv.copiedDown _ => true
  | _ => false

/-- Wording of the relay contract: once either copy loop has terminated, the session has
ended and both connections are closed. -/
def endsWhenEitherLoopEnds (s : Session) : Prop :=
  s.upRunning = false ∨ s.downRunning = false →
    s.returned = true ∧ s.connOpen = false ∧ s.targetOpen = false

/-! ## Concrete inputs -/

/-- A connection environment in which the SOCKS5 dialer is created and the dial succeeds. -/
def envOk : ConnEnv :=
  { rand := 0
    remoteAddr := "10.0.0.7:40312"
    socks5Ok := fun _ => true
    dialOk := fun _ _ => true }

/-- The fetched body of the end-to-end example: three candidates, the second malformed. -/
def exampleBody : String :=
  "127.0.0.1:9999\nnot-a-proxy\n127.0.0.1:9998"

/-- The network of the end-to-end example: only `127.0.0.1:9999` answers with status 200,
every other request fails. -/
def exampleNet : Nat → String → GetResult :=
  fun _ addr => if addr = "127.0.0.1:9999" then GetResult.response 200 else GetResult.failed

/-- One complete schedule of the end-to-end example. -/
def exampleSchedule : List Label :=
  [Label.main, Label.main, Label.main, Label.worker 0, Label.main, Label.worker 1, Label.main,
   Label.worker 0, Label.main, Label.main, Label.worker 2, Label.worker 0, Label.main,
   Label.worker 2, Label.worker 1, Label.insert true, Label.worker 0, Label.worker 0,
   Label.worker 2, Label.closer, Label.worker 2, Label.closer, Label.worker 0, Label.main]

/-- The state of the end-to-end example after the first eight steps of `exampleSchedule`:
the first goroutine is about to send, the third is not launched yet. -/
def exampleSending : VState :=
  { main := MainPc.acquire "127.0.0.1:9998" []
    closer := CloserPc.notStarted
    workers :=
      [[Op.send "127.0.0.1:9999", Op.closeBody, Op.wgDone, Op.semRelease], [Op.semRelease]]
    semaphore := 2
    wg := 2
    results := []
    resultsCap := 3
    closed := false
    sent := 0
    closes := 0
    pool := []
    stdout := [] }

/-- The state of the end-to-end example at the end of `exampleSchedule`. -/
def exampleFinal : VState :=
  { main := MainPc.serve
    closer := CloserPc.finished
    workers := [[], [], []]
    semaphore := 0
    wg := 0
    results := []
    resultsCap := 3
    closed := true
    sent := 1
    closes := 1
    pool := ["127.0.0.1:9999"]
    stdout := [LogLine.inserted "127.0.0.1:9999"] }

/-- A body of sixty candidates, more than the gate admits at once. -/
def stressBody : String :=
  String.intercalate "\n" (List.replicate 60 "192.0.2.1:1080")

/-- A network in which every request is answered with status 200. -/
def stressNet : Nat → String → GetResult :=
  fun _ _ => GetResult.response 200

/-- The state reached on `stressBody` when the launcher has moved 101 times and no goroutine
has moved: fifty goroutines are launched and `wg.Add(1)` is done for the fifty-first. -/
def stressState : VState :=
  (run stressNet (init stressBody) (List.replicate 101 Label.main)).getD (init stressBody)

/-- The relay session of `envOk` on a one-row pool after: 64 bytes inbound to outbound, the
inbound-to-outbound loop ends at EOF, 512 bytes outbound to inbound, the outbound-to-inbound
loop ends with an error. -/
def relayFinal : Session :=
  { trace :=
      [HEv.socks5 "198.51.100.4:1080", HEv.dial "10.0.0.7:40312", HEv.copiedUp 64,
        HEv.copiedDown 512, HEv.log LogMsg.forwardResponseError, HEv.closeTarget,
        HEv.closeConn]
    upRunning := false
    downRunning := false
    returned := true
    connOpen := false
    targetOpen := false }

/-! ## Facts about `strings.Split` -/

theorem splitChars_ne_nil (sep : Char) (cs : List Char) : splitChars sep cs ≠ [] := by
  induction cs with
  | nil => simp [splitChars]
  | cons c cs ih =>
    unfold splitChars
    split
    · simp
    · split <;> simp

theorem splitChars_length (sep : Char) (cs : List Char) :
    (splitChars sep cs).length = cs.count sep + 1 := by
  induction cs with
  | nil => simp [splitChars]
  | cons c cs ih =>
    unfold splitChars
    by_cases h : c = sep
    · subst h
      simp [ih]
    · have hc : List.count sep (c :: cs) = List.count sep cs := by
        rw [List.count_cons]
        simp [h]
      rw [if_neg h, hc]
      cases hs : splitChars sep cs with
      | nil => exact absurd hs (splitChars_ne_nil sep cs)
      | cons p ps =>
        rw [hs] at ih
        simpa using ih

theorem not_mem_of_mem_splitChars (sep : Char) (cs : List Char) :
    ∀ p ∈ splitChars sep cs, sep ∉ p := by
  induction cs with
  | nil => simp [splitChars]
  | cons c cs ih =>
    intro p hp
    unfold splitChars at hp
    by_cases hc : c = sep
    · rw [if_pos hc] at hp
      rcases List.mem_cons.mp hp with h | h
      · simp [h]
      · exact ih p h
    · rw [if_neg hc] at hp
      cases hs : splitChars sep cs with
      | nil => exact absurd hs (splitChars_ne_nil sep cs)
      | cons q qs =>
        rw [hs] at hp ih
        rcases List.mem_cons.mp hp with h | h
        · subst h
          have hq := ih q (List.mem_cons_self _ _)
          simp only [List.mem_cons, not_or]
          exact ⟨fun e => hc e.symm, hq⟩
        · exact ih p (List.mem_cons_of_mem _ h)

theorem joinChars_splitChars (sep : Char) (cs : List Char) :
    joinChars sep (splitChars sep cs) = cs := by
  induction cs with
  | nil => simp [splitChars, joinChars]
  | cons c cs ih =>
    unfold splitChars
    by_cases hc : c = sep
    · rw [if_pos hc]
      cases hs : splitChars sep cs with
      | nil => exact absurd hs (splitChars_ne_nil sep cs)
      | cons q qs =>
        rw [hs] at ih
        simp [joinChars, ih, hc]
    · rw [if_neg hc]
      cases hs : splitChars sep cs with
      | nil => exact absurd hs (splitChars_ne_nil sep cs)
      | cons q qs =>
        rw [hs] at ih
        cases qs with
        | nil => simpa [joinChars] using ih
        | cons r rs =>
          simp only [joinChars] at ih ⊢
          rw [← ih]
          simp

theorem splitChars_two (sep : Char) (cs a b : List Char) (h : splitChars sep cs = [a, b]) :
    cs = a ++ sep :: b ∧ sep ∉ a ∧ sep ∉ b := by
  have hj := joinChars_splitChars sep cs
  rw [h] at hj
  have hm := not_mem_of_mem_splitChars sep cs
  rw [h] at hm
  exact ⟨by simpa [joinChars] using hj.symm, hm a (by simp), hm b (by simp)⟩

/-! ## `testProxy` -/

theorem stringsSplit_length (s : String) (sep : Char) :
    (stringsSplit s sep).length = s.data.count sep + 1 := by
  simp [stringsSplit, splitChars_length]

/-- A candidate that splits into two parts is `host:port` for two colon-free strings. -/
theorem stringsSplit_two (p : String) (h : (stringsSplit p ':').length = 2) :
    ∃ host port, stringsSplit p ':' = [host, port] ∧ host ++ ":" ++ port = p ∧
      ':' ∉ host.data ∧ ':' ∉ port.data := by
  unfold stringsSplit at h ⊢
  rw [List.length_map] at h
  match hs : splitChars ':' p.data, h with
  | [a, b], _ =>
    obtain ⟨e, na, nb⟩ := splitChars_two ':' p.data a b hs
    refine ⟨String.mk a, String.mk b, by simp, ?_, na, nb⟩
    apply String.ext
    simp [String.data_append, e]

theorem testProxy_of_length_ne (get : String → GetResult) (p : String)
    (h : (stringsSplit p ':').length ≠ 2) : testProxy get p = [Op.wgDone] := by
  simp [testProxy, h]

/-- What `testProxy` does on a candidate that splits into two parts. -/
theorem testProxy_of_length_eq (get : String → GetResult) (p : String)
    (h : (stringsSplit p ':').length = 2) :
    testProxy get p =
      [Op.newClient p, Op.httpGet "http://ifconfig.me"] ++
        (if get p = GetResult.response 200 then [Op.send p, Op.closeBody] else []) ++
        [Op.wgDone] := by
  obtain ⟨host, port, hs, hj, -, -⟩ := stringsSplit_two p h
  have haddr : (stringsSplit p ':').getD 0 "" ++ ":" ++ (stringsSplit p ':').getD 1 "" = p := by
    rw [hs]
    simpa using hj
  unfold testProxy
  simp only [h, ne_eq, not_true_eq_false, if_false, haddr]
  cases hg : get p with
  | failed => simp
  | response status =>
    by_cases h200 : status = 200
    · simp [h200]
    · simp [h200]

theorem emitted_testProxy (get : String → GetResult) (p : String) :
    emitted (testProxy get p) =
      if (stringsSplit p ':').length = 2 ∧ get p = GetResult.response 200 then [p] else [] := by
  by_cases h : (stringsSplit p ':').length = 2
  · rw [testProxy_of_length_eq get p h]
    by_cases hg : get p = GetResult.response 200
    · simp [emitted, Op.sent?, h, hg]
    · simp [emitted, Op.sent?, h, hg]
  · rw [testProxy_of_length_ne get p h]
    simp [emitted, Op.sent?, h]

/-- C1: `testProxy` puts the candidate on the result channel exactly when the candidate
splits on `':'` into two parts and the GET through it came back without error with
status 200; it then sends the candidate once, and otherwise sends nothing. -/
theorem C1_testProxy_emits_iff (get : String → GetResult) (p : String) :
    (emitted (testProxy get p) =
        if (stringsSplit p ':').length = 2 ∧ get p = GetResult.response 200 then [p] else []) ∧
    (Op.send p ∈ testProxy get p ↔
        (stringsSplit p ':').length = 2 ∧ get p = GetResult.response 200) ∧
    (∀ v, Op.send v ∈ testProxy get p → v = p) := by
  refine ⟨emitted_testProxy get p, ?_, ?_⟩
  · by_cases h : (stringsSplit p ':').length = 2
    · rw [testProxy_of_length_eq get p h]
      by_cases hg : get p = GetResult.response 200 <;> simp [h, hg]
    · rw [testProxy_of_length_ne get p h]
      simp [h]
  · intro v hv
    by_cases h : (stringsSplit p ':').length = 2
    · rw [testProxy_of_length_eq get p h] at hv
      by_cases hg : get p = GetResult.response 200 <;> simp [hg] at hv
      exact hv
    · rw [testProxy_of_length_ne get p h] at hv
      simp at hv

/-- C2: a candidate whose number of colons is not one makes `testProxy` return at line 27:
the only operation performed is the deferred `wg.Done()`, so no client is built, no
request is issued and nothing is sent on the result channel, whatever the oracle. -/
theorem C2_not_one_colon_returns_early (get : String → GetResult) (p : String)
    (h : p.data.count ':' ≠ 1) :
    testProxy get p = [Op.wgDone] ∧
    (∀ op ∈ testProxy get p, op.isNetwork = false) ∧
    emitted (testProxy get p) = [] := by
  have hl : (stringsSplit p ':').length ≠ 2 := by
    rw [stringsSplit_length]
    omega
  rw [testProxy_of_length_ne get p hl]
  simp [emitted, Op.sent?, Op.isNetwork]

theorem C2_witness :
    (testProxy (fun _ => GetResult.response 200) "not-a-proxy" = [Op.wgDone] ∧
      (∀ op ∈ testProxy (fun _ => GetResult.response 200) "not-a-proxy", op.isNetwork = false) ∧
      emitted (testProxy (fun _ => GetResult.response 200) "not-a-proxy") = []) ∧
    (testProxy (fun _ => GetResult.response 200) "[::1]:1080" = [Op.wgDone] ∧
      (∀ op ∈ testProxy (fun _ => GetResult.response 200) "[::1]:1080", op.isNetwork = false) ∧
      emitted (testProxy (fun _ => GetResult.response 200) "[::1]:1080") = []) :=
  ⟨C2_not_one_colon_returns_early _ "not-a-proxy" (by decide),
   C2_not_one_colon_returns_early _ "[::1]:1080" (by decide)⟩

/-- C3 as stated fails: the candidate `":1080"` has an empty host, yet `testProxy` builds a
client for it, issues the GET and, on a 200 answer, sends it on the result channel.
The same holds for `"host:"` and `":"`. -/
theorem C3_counterexample :
    ¬ twoNonEmptyParts ":1080" ∧
    stringsSplit ":1080" ':' = ["", "1080"] ∧
    testProxy (fun _ => GetResult.response 200) ":1080" =
      [Op.newClient ":1080", Op.httpGet "http://ifconfig.me", Op.send ":1080",
        Op.closeBody, Op.wgDone] ∧
    emitted (testProxy (fun _ => GetResult.response 200) "host:") = ["host:"] ∧
    emitted (testProxy (fun _ => GetResult.response 200) ":") = [":"] ∧
    ¬ (∀ (get : String → GetResult) (p : String), ¬ twoNonEmptyParts p →
        (∀ op ∈ testProxy get p, op.isNetwork = false) ∧ emitted (testProxy get p) = []) := by
  have h1 : ¬ twoNonEmptyParts ":1080" := by
    rintro ⟨host, port, hs, hh, -⟩
    have : stringsSplit ":1080" ':' = ["", "1080"] := by decide
    rw [this] at hs
    injection hs with e _
    exact hh e.symm
  refine ⟨h1, by decide, by decide, by decide, by decide, ?_⟩
  intro hall
  have := (hall (fun _ => GetResult.response 200) ":1080" h1).2
  revert this
  decide

/-- C3, amended: a candidate that does not split on `':'` into exactly two parts is dropped
by `testProxy` before any client is built or request issued, and whenever `testProxy`
touches the network or sends on the result channel the candidate is `host:port` for a
host and a port that contain no colon; either of them may be empty. -/
theorem C3_two_parts_possibly_empty (get : String → GetResult) (p : String) :
    ((stringsSplit p ':').length ≠ 2 → testProxy get p = [Op.wgDone]) ∧
    ((∃ op ∈ testProxy get p, op.isNetwork = true ∨ op.sent?.isSome) →
      ∃ host port, stringsSplit p ':' = [host, port] ∧ host ++ ":" ++ port = p ∧
        ':' ∉ host.data ∧ ':' ∉ port.data) := by
  refine ⟨testProxy_of_length_ne get p, ?_⟩
  rintro ⟨op, hop, hnet⟩
  by_cases h : (stringsSplit p ':').length = 2
  · exact stringsSplit_two p h
  · rw [testProxy_of_length_ne get p h] at hop
    simp at hop
    subst hop
    simp [Op.isNetwork, Op.sent?] at hnet

theorem C3_witness :
    ∃ host port, stringsSplit ":1080" ':' = [host, port] ∧ host ++ ":" ++ port = ":1080" ∧
      ':' ∉ host.data ∧ ':' ∉ port.data :=
  (C3_two_parts_possibly_empty (fun _ => GetResult.response 200) ":1080").2
    ⟨Op.send ":1080", by decide, Or.inr rfl⟩

/-! ## Goroutines of the validation phase -/

theorem goroutine_cases (get : String → GetResult) (p : String) :
    goroutine get p = [Op.wgDone, Op.semRelease] ∨
    ((stringsSplit p ':').length = 2 ∧
      (goroutine get p =
          [Op.newClient p, Op.httpGet "http://ifconfig.me", Op.wgDone, Op.semRelease] ∨
        goroutine get p =
          [Op.newClient p, Op.httpGet "http://ifconfig.me", Op.send p, Op.closeBody,
            Op.wgDone, Op.semRelease])) := by
  unfold goroutine
  by_cases h : (stringsSplit p ':').length = 2
  · right
    refine ⟨h, ?_⟩
    rw [testProxy_of_length_eq get p h]
    by_cases hg : get p = GetResult.response 200 <;> simp [hg]
  · left
    rw [testProxy_of_length_ne get p h]
    rfl

/-- The possible shapes of what is left of a goroutine. -/
theorem WF.cases {w : List Op} (h : WF w) :
    w = [] ∨ w = [Op.semRelease] ∨ w = [Op.wgDone, Op.semRelease] ∨
    (∃ p, (stringsSplit p ':').length = 2 ∧
      (w = [Op.httpGet "http://ifconfig.me", Op.wgDone, Op.semRelease] ∨
       w = [Op.newClient p, Op.httpGet "http://ifconfig.me", Op.wgDone, Op.semRelease] ∨
       w = [Op.closeBody, Op.wgDone, Op.semRelease] ∨
       w = [Op.send p, Op.closeBody, Op.wgDone, Op.semRelease] ∨
       w = [Op.httpGet "http://ifconfig.me", Op.send p, Op.closeBody, Op.wgDone,
            Op.semRelease] ∨
       w = [Op.newClient p, Op.httpGet "http://ifconfig.me", Op.send p, Op.closeBody,
            Op.wgDone, Op.semRelease])) := by
  obtain ⟨get, p, hs⟩ := h
  rcases goroutine_cases get p with hg | ⟨hl, hg | hg⟩ <;> rw [hg] at hs <;>
    simp only [List.suffix_cons_iff, List.suffix_nil] at hs
  · rcases hs with h | h | h <;> simp [h]
  · rcases hs with h | h | h | h | h
    · exact Or.inr (Or.inr (Or.inr ⟨p, hl, by simp [h]⟩))
    · exact Or.inr (Or.inr (Or.inr ⟨p, hl, by simp [h]⟩))
    · simp [h]
    · simp [h]
    · simp [h]
  · rcases hs with h | h | h | h | h | h | h
    · exact Or.inr (Or.inr (Or.inr ⟨p, hl, by simp [h]⟩))
    · exact Or.inr (Or.inr (Or.inr ⟨p, hl, by simp [h]⟩))
    · exact Or.inr (Or.inr (Or.inr ⟨p, hl, by simp [h]⟩))
    · exact Or.inr (Or.inr (Or.inr ⟨p, hl, by simp [h]⟩))
    · simp [h]
    · simp [h]
    · simp [h]

theorem WF.goroutine (get : String → GetResult) (p : String) : WF (goroutine get p) :=
  ⟨get, p, List.suffix_refl _⟩

theorem WF.tail {op : Op} {tl : List Op} (h : WF (op :: tl)) : WF tl := by
  obtain ⟨get, p, hs⟩ := h
  exact ⟨get, p, (List.suffix_cons op tl).trans hs⟩

theorem WF.count_semRelease {w : List Op} (h : WF w) :
    w.count Op.semRelease = if w.isEmpty then 0 else 1 := by
  rcases h.cases with h | h | h | ⟨p, -, h | h | h | h | h | h⟩ <;> subst h <;>
    simp [List.count_cons]

theorem WF.count_wgDone {w : List Op} (h : WF w) :
    w.count Op.wgDone = if w.contains Op.wgDone then 1 else 0 := by
  rcases h.cases with h | h | h | ⟨p, -, h | h | h | h | h | h⟩ <;> subst h <;>
    simp [List.count_cons]

/-- A goroutine that may still send has not yet signalled completion. -/
theorem WF.emitted_le {w : List Op} (h : WF w) :
    (emitted w).length ≤ w.count Op.wgDone := by
  rcases h.cases with h | h | h | ⟨p, -, h | h | h | h | h | h⟩ <;> subst h <;>
    simp [emitted, Op.sent?, List.count_cons]

theorem WF.count_wgDone_le {w : List Op} (h : WF w) :
    w.count Op.wgDone ≤ w.count Op.semRelease := by
  rcases h.cases with h | h | h | ⟨p, -, h | h | h | h | h | h⟩ <;> subst h <;>
    simp [List.count_cons]

theorem WF.emitted_two_parts {w : List Op} (h : WF w) :
    ∀ v ∈ emitted w, (stringsSplit v ':').length = 2 := by
  rcases h.cases with h | h | h | ⟨p, hp, h⟩
  · subst h; simp [emitted]
  · subst h; simp [emitted, Op.sent?]
  · subst h; simp [emitted, Op.sent?]
  · rcases h with h | h | h | h | h | h <;> subst h <;> simp [emitted, Op.sent?, hp]

/-! ## Bookkeeping over the goroutines -/

theorem allOps_append (ws : List (List Op)) (w : List Op) :
    allOps (ws ++ [w]) = allOps ws ++ w := by
  induction ws with
  | nil => simp [allOps]
  | cons x xs ih => simp [allOps, ih]

/-- Performing the first operation of goroutine `i` removes that operation from the
pending ones. -/
theorem allOps_set_perm (ws : List (List Op)) (i : Nat) (op : Op) (tl : List Op)
    (h : ws[i]? = some (op :: tl)) :
    (allOps ws).Perm (op :: allOps (ws.set i tl)) := by
  induction ws generalizing i with
  | nil => simp at h
  | cons x xs ih =>
    cases i with
    | zero =>
      simp at h
      subst h
      simp [allOps]
    | succ j =>
      simp at h
      simp only [List.set_cons_succ, allOps]
      exact ((ih j h).append_left x).trans List.perm_middle

theorem count_allOps_set (ws : List (List Op)) (i : Nat) (op : Op) (tl : List Op)
    (h : ws[i]? = some (op :: tl)) (x : Op) :
    (allOps ws).count x = (allOps (ws.set i tl)).count x + if op = x then 1 else 0 := by
  rw [(allOps_set_perm ws i op tl h).count_eq x, List.count_cons]
  simp

theorem emitted_allOps_set (ws : List (List Op)) (i : Nat) (op : Op) (tl : List Op)
    (h : ws[i]? = some (op :: tl)) :
    (emitted (allOps ws)).Perm (emitted [op] ++ emitted (allOps (ws.set i tl))) := by
  have := (allOps_set_perm ws i op tl h).filterMap Op.sent?
  unfold emitted
  rw [← List.filterMap_append]
  simpa using this

theorem emitted_append (a b : List Op) : emitted (a ++ b) = emitted a ++ emitted b := by
  simp [emitted]

theorem emitted_goroutine (get : String → GetResult) (p : String) :
    emitted (goroutine get p) =
      if (stringsSplit p ':').length = 2 ∧ get p = GetResult.response 200 then [p] else [] := by
  rw [goroutine, emitted_append, emitted_testProxy]
  simp [emitted, Op.sent?]

theorem wf_of_set {ws : List (List Op)} {i : Nat} {op : Op} {tl : List Op}
    (hwf : ∀ w ∈ ws, WF w) (h : ws[i]? = some (op :: tl)) :
    ∀ w ∈ ws.set i tl, WF w := by
  intro w hw
  rcases List.mem_or_eq_of_mem_set hw with hm | he
  · exact hwf w hm
  · subst he
    exact (hwf _ (List.getElem?_mem h)).tail

theorem two_parts_ne_empty {v : String} (h : (stringsSplit v ':').length = 2) : v ≠ "" := by
  intro e
  subst e
  revert h
  decide

set_option linter.unusedTactic false
set_option linter.unreachableTactic false

/-! ## The invariant holds in every reachable state -/

theorem Inv.init (net : Nat → String → GetResult) (body : String) :
    Inv net body (init body) := by
  constructor <;>
    simp [Sssocks.init, allOps, emitted, MainPc.acquiring, MainPc.launching, MainPc.toVisit,
      MainPc.inserting, VState.bag, MainPc.upcoming, semCap]

theorem count_semRelease_goroutine (get : String → GetResult) (p : String) :
    (goroutine get p).count Op.semRelease = 1 := by
  rcases goroutine_cases get p with h | ⟨-, h | h⟩ <;> rw [h] <;> simp [List.count_cons]

theorem count_wgDone_goroutine (get : String → GetResult) (p : String) :
    (goroutine get p).count Op.wgDone = 1 := by
  rcases goroutine_cases get p with h | ⟨-, h | h⟩ <;> rw [h] <;> simp [List.count_cons]

theorem Inv.stepMain {net : Nat → String → GetResult} {body : String} {s t : VState}
    (h : Inv net body s) (hs : stepMain net s = some t) : Inv net body t := by
  obtain ⟨wf, sem_eq, sem_le, wg_eq, closer_started, woken_wg, closed_iff, cap_eq, cap_ge,
    sent_le, results_le, acquire_ne, two_parts, pool_eq, closes_eq, serve_done, bag_eq⟩ := h
  unfold Sssocks.stepMain at hs
  split at hs
  next hm =>
    -- the loop is over: start the closer
    simp only [Option.some.injEq] at hs
    subst hs
    simp only [VState.bag, hm, MainPc.upcoming, MainPc.inserting, MainPc.acquiring,
      MainPc.toVisit, MainPc.launching, passing, List.length_cons] at *
    constructor <;>
      simp only [MainPc.acquiring, MainPc.launching, MainPc.toVisit, MainPc.inserting,
        VState.bag, MainPc.upcoming] <;>
      first
      | assumption
      | omega
      | (simp; done)
      | (simp_all; done)
      | (rw [← bag_eq]
         simp only [List.map_append, List.map_cons, List.map_nil, LogLine.row, ← Multiset.cons_coe,
           ← Multiset.singleton_add, ← Multiset.coe_add, Multiset.coe_nil]
         abel)
      | (intro x hx
         apply two_parts
         simp at hx ⊢
         tauto)
      | skip
  next p rest hm =>
    split at hs
    next hp =>
      -- an empty line is skipped
      simp only [Option.some.injEq] at hs
      subst hs
      simp only [VState.bag, hm, MainPc.upcoming, MainPc.inserting, MainPc.acquiring,
        MainPc.toVisit, MainPc.launching, passing, List.length_cons] at *
      constructor <;>
        simp only [MainPc.acquiring, MainPc.launching, MainPc.toVisit, MainPc.inserting,
          VState.bag, MainPc.upcoming] <;>
        first
        | assumption
        | omega
        | (simp; done)
        | (simp_all; done)
        | (rw [← bag_eq]
           simp only [List.map_append, List.map_cons, List.map_nil, LogLine.row, ← Multiset.cons_coe,
             ← Multiset.singleton_add, ← Multiset.coe_add, Multiset.coe_nil]
           abel)
        | (intro x hx
           apply two_parts
           simp at hx ⊢
           tauto)
        | skip
    next hp =>
      -- `wg.Add(1)`
      simp only [Option.some.injEq] at hs
      subst hs
      simp only [VState.bag, hm, MainPc.upcoming, MainPc.inserting, MainPc.acquiring,
        MainPc.toVisit, MainPc.launching, passing, List.length_cons] at *
      constructor <;>
        simp only [MainPc.acquiring, MainPc.launching, MainPc.toVisit, MainPc.inserting,
          VState.bag, MainPc.upcoming] <;>
        first
        | assumption
        | omega
        | (simp; done)
        | (simp_all; done)
        | (rw [← bag_eq]
           simp only [List.map_append, List.map_cons, List.map_nil, LogLine.row, ← Multiset.cons_coe,
             ← Multiset.singleton_add, ← Multiset.coe_add, Multiset.coe_nil]
           abel)
        | (intro x hx
           apply two_parts
           simp at hx ⊢
           tauto)
        | skip
  next p rest hm =>
    split at hs
    next hsem =>
      -- a slot of the gate is taken and the goroutine is launched
      simp only [Option.some.injEq] at hs
      subst hs
      have hne := acquire_ne p rest hm
      simp only [VState.bag, hm, MainPc.upcoming, MainPc.inserting, MainPc.acquiring,
        MainPc.toVisit, MainPc.launching, passing, List.length_cons, hne, if_false] at *
      constructor <;>
        simp only [MainPc.acquiring, MainPc.launching, MainPc.toVisit, MainPc.inserting,
          VState.bag, MainPc.upcoming, allOps_append, List.count_append, emitted_append,
          emitted_goroutine, List.length_append, List.length_singleton,
          count_semRelease_goroutine, count_wgDone_goroutine] <;>
        first
        | assumption
        | omega
        | (simp; done)
        | (simp_all; done)
        | (rw [← bag_eq]
           simp only [List.map_append, List.map_cons, List.map_nil, LogLine.row, ← Multiset.cons_coe,
             ← Multiset.singleton_add, ← Multiset.coe_add, Multiset.coe_nil]
           abel)
        | (intro x hx
           apply two_parts
           simp at hx ⊢
           tauto)
        | skip
      case wf =>
        intro w hw
        rcases List.mem_append.mp hw with hw | hw
        · exact wf w hw
        · rw [List.mem_singleton.mp hw]
          exact WF.goroutine _ _
      case sent_le =>
        split_ifs <;> simp <;> omega
    next => simp at hs
  next hm =>
    split at hs
    next v vs hr =>
      -- a value is received
      have hv : v ≠ "" :=
        two_parts_ne_empty (two_parts v (Or.inl (by rw [hr]; exact List.mem_cons_self v vs)))
      rw [if_pos hv] at hs
      simp only [Option.some.injEq] at hs
      subst hs
      simp only [VState.bag, hm, MainPc.upcoming, MainPc.inserting, MainPc.acquiring,
        MainPc.toVisit, MainPc.launching, passing, List.length_cons, hr] at *
      constructor <;>
        simp only [MainPc.acquiring, MainPc.launching, MainPc.toVisit, MainPc.inserting,
          VState.bag, MainPc.upcoming] <;>
        first
        | assumption
        | omega
        | (simp; done)
        | (simp_all; done)
        | (rw [← bag_eq]
           simp only [List.map_append, List.map_cons, List.map_nil, LogLine.row, ← Multiset.cons_coe,
             ← Multiset.singleton_add, ← Multiset.coe_add, Multiset.coe_nil]
           abel)
        | (intro x hx
           apply two_parts
           simp at hx ⊢
           tauto)
        | skip
    next hr =>
      split at hs
      next hc =>
        -- the channel is closed and drained
        simp only [Option.some.injEq] at hs
        subst hs
        simp only [VState.bag, hm, MainPc.upcoming, MainPc.inserting, MainPc.acquiring,
          MainPc.toVisit, MainPc.launching, passing, List.length_cons, hr] at *
        constructor <;>
          simp only [MainPc.acquiring, MainPc.launching, MainPc.toVisit, MainPc.inserting,
            VState.bag, MainPc.upcoming] <;>
          first
          | assumption
          | omega
          | (simp; done)
          | (simp_all; done)
          | (rw [← bag_eq]
             simp only [List.map_append, List.map_cons, List.map_nil, LogLine.row, ← Multiset.cons_coe,
               ← Multiset.singleton_add, ← Multiset.coe_add, Multiset.coe_nil]
             abel)
          | (intro x hx
             apply two_parts
             simp at hx ⊢
             tauto)
          | skip
      next => simp at hs
  next => simp at hs
  next => simp at hs

theorem Inv.stepInsert {net : Nat → String → GetResult} {body : String} {s t : VState}
    (h : Inv net body s) (ok : Bool) (hs : stepInsert s ok = some t) : Inv net body t := by
  obtain ⟨wf, sem_eq, sem_le, wg_eq, closer_started, woken_wg, closed_iff, cap_eq, cap_ge,
    sent_le, results_le, acquire_ne, two_parts, pool_eq, closes_eq, serve_done, bag_eq⟩ := h
  unfold Sssocks.stepInsert at hs
  split at hs
  next v hm =>
    split at hs
    next hok =>
      simp only [Option.some.injEq] at hs
      subst hs
      simp only [VState.bag, hm, MainPc.upcoming, MainPc.inserting, MainPc.acquiring,
        MainPc.toVisit, MainPc.launching, passing, List.length_cons] at *
      constructor <;>
        simp only [MainPc.acquiring, MainPc.launching, MainPc.toVisit, MainPc.inserting,
          VState.bag, MainPc.upcoming] <;>
        first
        | assumption
        | omega
        | (simp; done)
        | (simp_all; done)
        | (rw [← bag_eq]
           simp only [List.map_append, List.map_cons, List.map_nil, LogLine.row, ← Multiset.cons_coe,
             ← Multiset.singleton_add, ← Multiset.coe_add, Multiset.coe_nil]
           abel)
        | (intro x hx
           apply two_parts
           simp at hx ⊢
           tauto)
        | skip
      case pool_eq => simp [pool_eq, List.filterMap_append, LogLine.stored?]
    next hok =>
      simp only [Option.some.injEq] at hs
      subst hs
      simp only [VState.bag, hm, MainPc.upcoming, MainPc.inserting, MainPc.acquiring,
        MainPc.toVisit, MainPc.launching, passing, List.length_cons] at *
      constructor <;>
        simp only [MainPc.acquiring, MainPc.launching, MainPc.toVisit, MainPc.inserting,
          VState.bag, MainPc.upcoming] <;>
        first
        | assumption
        | omega
        | (simp; done)
        | (simp_all; done)
        | (rw [← bag_eq]
           simp only [List.map_append, List.map_cons, List.map_nil, LogLine.row, ← Multiset.cons_coe,
             ← Multiset.singleton_add, ← Multiset.coe_add, Multiset.coe_nil]
           abel)
        | (intro x hx
           apply two_parts
           simp at hx ⊢
           tauto)
        | skip
      case pool_eq => simp [pool_eq, List.filterMap_append, LogLine.stored?]
  next => simp at hs

theorem Inv.stepCloser {net : Nat → String → GetResult} {body : String} {s t : VState}
    (h : Inv net body s) (hs : stepCloser s = some t) : Inv net body t := by
  obtain ⟨wf, sem_eq, sem_le, wg_eq, closer_started, woken_wg, closed_iff, cap_eq, cap_ge,
    sent_le, results_le, acquire_ne, two_parts, pool_eq, closes_eq, serve_done, bag_eq⟩ := h
  unfold Sssocks.stepCloser at hs
  split at hs
  next hm =>
    split at hs
    next hwg =>
      simp only [Option.some.injEq] at hs
      subst hs
      simp only [VState.bag, hm] at *
      constructor <;>
        simp only [VState.bag] <;>
        first
        | assumption
        | omega
        | (simp; done)
        | (simp_all; done)
        | (rw [← bag_eq]
           simp only [List.map_append, List.map_cons, List.map_nil, LogLine.row, ← Multiset.cons_coe,
             ← Multiset.singleton_add, ← Multiset.coe_add, Multiset.coe_nil]
           abel)
        | (intro x hx
           apply two_parts
           simp at hx ⊢
           tauto)
        | skip
    next => simp at hs
  next hm =>
    split at hs
    next => simp at hs
    next hcl =>
      simp only [Option.some.injEq] at hs
      subst hs
      simp only [VState.bag, hm] at *
      constructor <;>
        simp only [VState.bag] <;>
        first
        | assumption
        | omega
        | (simp; done)
        | (simp_all; done)
        | (rw [← bag_eq]
           simp only [List.map_append, List.map_cons, List.map_nil, LogLine.row, ← Multiset.cons_coe,
             ← Multiset.singleton_add, ← Multiset.coe_add, Multiset.coe_nil]
           abel)
        | (intro x hx
           apply two_parts
           simp at hx ⊢
           tauto)
        | skip
  next => simp at hs

theorem emitted_singleton_of_ne_send (op : Op) (h : ∀ v, op = Op.send v → False) :
    emitted [op] = [] := by
  cases op with
  | send v => exact absurd rfl (h v)
  | _ => rfl

/-- What performing the first operation of goroutine `i` does to the bookkeeping. -/
theorem worker_facts {ws : List (List Op)} {i : Nat} {op : Op} {tl : List Op}
    (h : ws[i]? = some (op :: tl)) :
    (allOps ws).count Op.semRelease =
        (allOps (ws.set i tl)).count Op.semRelease + (if op = Op.semRelease then 1 else 0) ∧
    (allOps ws).count Op.wgDone =
        (allOps (ws.set i tl)).count Op.wgDone + (if op = Op.wgDone then 1 else 0) ∧
    (emitted (allOps ws)).length =
        (emitted (allOps (ws.set i tl))).length + (emitted [op]).length ∧
    (emitted (allOps ws) : Multiset String) =
        (emitted (allOps (ws.set i tl)) : Multiset String) + (emitted [op] : Multiset String) := by
  refine ⟨count_allOps_set ws i op tl h _, count_allOps_set ws i op tl h _, ?_, ?_⟩
  · rw [(emitted_allOps_set ws i op tl h).length_eq, List.length_append]
    omega
  · rw [Multiset.coe_add, Multiset.coe_eq_coe]
    exact (emitted_allOps_set ws i op tl h).trans List.perm_append_comm

theorem Inv.stepWorker {net : Nat → String → GetResult} {body : String} {s t : VState}
    (h : Inv net body s) (i : Nat) (hs : stepWorker s i = some t) : Inv net body t := by
  obtain ⟨wf, sem_eq, sem_le, wg_eq, closer_started, woken_wg, closed_iff, cap_eq, cap_ge,
    sent_le, results_le, acquire_ne, two_parts, pool_eq, closes_eq, serve_done, bag_eq⟩ := h
  unfold Sssocks.stepWorker at hs
  split at hs
  next op tl hw =>
    have wf2 := wf_of_set wf hw
    have hwf : WF (op :: tl) := wf _ (List.getElem?_mem hw)
    obtain ⟨hsr, hwd, hlen, hbag⟩ := worker_facts hw
    split at hs
    next v =>
      -- `results <- v`
      split at hs
      next hg =>
        simp only [Option.some.injEq] at hs
        subst hs
        have hv : (stringsSplit v ':').length = 2 :=
          hwf.emitted_two_parts v (by simp [emitted, Op.sent?])
        have he : emitted [Op.send v] = [v] := by simp [emitted, Op.sent?]
        simp only [he, List.length_singleton, reduceCtorEq, if_false, Nat.add_zero] at *
        simp only [VState.bag, hbag, hlen, hsr, hwd, List.length_set] at *
        constructor <;>
          simp only [VState.bag, List.length_set] <;>
          first
          | assumption
          | omega
          | (simp; done)
          | (simp_all; done)
          | (rw [← bag_eq]
             simp only [List.map_append, List.map_cons, List.map_nil, LogLine.row, ← Multiset.cons_coe,
               ← Multiset.singleton_add, ← Multiset.coe_add, Multiset.coe_nil]
             abel)
          | (intro x hx
             apply two_parts
             simp at hx ⊢
             tauto)
          | skip
        case two_parts =>
          intro x hx
          rcases hx with hx | hx | hx
          · rcases List.mem_append.mp hx with hx | hx
            · exact two_parts x (Or.inl hx)
            · rw [List.mem_singleton.mp hx]
              exact hv
          · exact two_parts x (Or.inr (Or.inl hx))
          · exact two_parts x (Or.inr (Or.inr hx))
      next => simp at hs
    next =>
      -- `wg.Done()`
      split at hs
      next hg =>
        simp only [Option.some.injEq] at hs
        subst hs
        have he : emitted [Op.wgDone] = [] := by simp [emitted, Op.sent?]
        simp only [he, List.length_nil, reduceCtorEq, if_false, if_true, Nat.add_zero] at *
        simp only [VState.bag, hbag, hlen, hsr, hwd, List.length_set] at *
        constructor <;>
          simp only [VState.bag, List.length_set] <;>
          first
          | assumption
          | omega
          | (simp; done)
          | (simp_all; done)
          | (rw [← bag_eq]
             simp only [List.map_append, List.map_cons, List.map_nil, LogLine.row, ← Multiset.cons_coe,
               ← Multiset.singleton_add, ← Multiset.coe_add, Multiset.coe_nil]
             abel)
          | (intro x hx
             apply two_parts
             simp at hx ⊢
             tauto)
          | skip
      next => simp at hs
    next =>
      -- `<-semaphore`
      split at hs
      next hg =>
        simp only [Option.some.injEq] at hs
        subst hs
        have he : emitted [Op.semRelease] = [] := by simp [emitted, Op.sent?]
        simp only [he, List.length_nil, reduceCtorEq, if_false, if_true, Nat.add_zero] at *
        simp only [VState.bag, hbag, hlen, hsr, hwd, List.length_set] at *
        constructor <;>
          simp only [VState.bag, List.length_set] <;>
          first
          | assumption
          | omega
          | (simp; done)
          | (simp_all; done)
          | (rw [← bag_eq]
             simp only [List.map_append, List.map_cons, List.map_nil, LogLine.row, ← Multiset.cons_coe,
               ← Multiset.singleton_add, ← Multiset.coe_add, Multiset.coe_nil]
             abel)
          | (intro x hx
             apply two_parts
             simp at hx ⊢
             tauto)
          | skip
      next => simp at hs
    next h1 h2 h3 =>
      -- building the client, the GET, closing the body
      simp only [Option.some.injEq] at hs
      subst hs
      have he : emitted [op] = [] := emitted_singleton_of_ne_send op h1
      have e1 : (op = Op.semRelease) = False := by simpa using h3
      have e2 : (op = Op.wgDone) = False := by simpa using h2
      simp only [he, e1, e2, List.length_nil, if_false, Nat.add_zero] at *
      simp only [VState.bag, hbag, hlen, hsr, hwd, List.length_set] at *
      constructor <;>
        simp only [VState.bag, List.length_set] <;>
        first
        | assumption
        | omega
        | (simp; done)
        | (simp_all; done)
        | (rw [← bag_eq]
           simp only [List.map_append, List.map_cons, List.map_nil, LogLine.row, ← Multiset.cons_coe,
             ← Multiset.singleton_add, ← Multiset.coe_add, Multiset.coe_nil]
           abel)
        | (intro x hx
           apply two_parts
           simp at hx ⊢
           tauto)
        | skip
  next => simp at hs

theorem Inv.step {net : Nat → String → GetResult} {body : String} {s t : VState}
    (h : Inv net body s) (l : Label) (hs : step net s l = some t) : Inv net body t := by
  cases l with
  | main => exact h.stepMain hs
  | insert ok => exact h.stepInsert ok hs
  | worker i => exact h.stepWorker i hs
  | closer => exact h.stepCloser hs

theorem Inv.run {net : Nat → String → GetResult} {body : String} (ls : List Label) :
    ∀ {s t : VState}, Inv net body s → run net s ls = some t → Inv net body t := by
  induction ls with
  | nil =>
    intro s t h hr
    simp only [Sssocks.run, Option.some.injEq] at hr
    exact hr ▸ h
  | cons l ls ih =>
    intro s t h hr
    simp only [Sssocks.run] at hr
    cases hst : Sssocks.step net s l with
    | none => simp [hst] at hr
    | some u =>
      rw [hst] at hr
      exact ih (h.step l hst) hr

theorem Reachable.inv {net : Nat → String → GetResult} {body : String} {s : VState}
    (h : Reachable net body s) : Inv net body s := by
  obtain ⟨ls, hr⟩ := h
  exact Inv.run ls (Inv.init net body) hr

/-! ## Counting goroutines -/

theorem countP_running_eq (ws : List (List Op)) (hwf : ∀ w ∈ ws, WF w) :
    ws.countP (fun w => !w.isEmpty) = (allOps ws).count Op.semRelease := by
  induction ws with
  | nil => rfl
  | cons w ws ih =>
    have hw : WF w := hwf w (List.mem_cons_self _ _)
    have ih2 := ih (fun x hx => hwf x (List.mem_cons_of_mem _ hx))
    rw [List.countP_cons, allOps, List.count_append, ih2, hw.count_semRelease]
    cases w <;> simp
    omega

theorem countP_unfinished_eq (ws : List (List Op)) (hwf : ∀ w ∈ ws, WF w) :
    ws.countP (fun w => w.contains Op.wgDone) = (allOps ws).count Op.wgDone := by
  induction ws with
  | nil => rfl
  | cons w ws ih =>
    have hw : WF w := hwf w (List.mem_cons_self _ _)
    have ih2 := ih (fun x hx => hwf x (List.mem_cons_of_mem _ hx))
    rw [List.countP_cons, allOps, List.count_append, ih2, hw.count_wgDone]
    omega

theorem emitted_allOps_le (ws : List (List Op)) (hwf : ∀ w ∈ ws, WF w) :
    (emitted (allOps ws)).length ≤ (allOps ws).count Op.wgDone := by
  induction ws with
  | nil => simp [allOps, emitted]
  | cons w ws ih =>
    have hw : WF w := hwf w (List.mem_cons_self _ _)
    have ih2 := ih (fun x hx => hwf x (List.mem_cons_of_mem _ hx))
    have := hw.emitted_le
    rw [allOps, emitted_append, List.length_append, List.count_append]
    omega

theorem count_wgDone_allOps_le (ws : List (List Op)) (hwf : ∀ w ∈ ws, WF w) :
    (allOps ws).count Op.wgDone ≤ (allOps ws).count Op.semRelease := by
  induction ws with
  | nil => simp [allOps]
  | cons w ws ih =>
    have hw : WF w := hwf w (List.mem_cons_self _ _)
    have ih2 := ih (fun x hx => hwf x (List.mem_cons_of_mem _ hx))
    have := hw.count_wgDone_le
    rw [allOps, List.count_append, List.count_append]
    omega

theorem mem_allOps_of_mem {ws : List (List Op)} {w : List Op} {op : Op}
    (hw : w ∈ ws) (hop : op ∈ w) : op ∈ allOps ws := by
  induction ws with
  | nil => simp at hw
  | cons x xs ih =>
    rcases List.mem_cons.mp hw with e | e
    · subst e
      simp [allOps, hop]
    · simp [allOps, ih e]

theorem mem_allOps_of_getElem? {ws : List (List Op)} {i : Nat} {op : Op} {tl : List Op}
    (h : ws[i]? = some (op :: tl)) : op ∈ allOps ws :=
  (allOps_set_perm ws i op tl h).mem_iff.mpr (List.mem_cons_self _ _)

/-! ## The admission gate -/

/-- C4: in every reachable state of the validation phase, whatever the fetched body, at
most 50 goroutines have been launched and have not exited; each of them holds one slot of
the gate, the tests that have not yet signalled completion are among them, and the
launcher cannot take a slot while 50 are taken. -/
theorem C4_at_most_50_in_flight (net : Nat → String → GetResult) (body : String) (s : VState)
    (h : Reachable net body s) :
    unfinished s ≤ 50 ∧ running s ≤ 50 ∧ unfinished s ≤ running s ∧ running s = s.semaphore ∧
    (∀ p rest, s.main = MainPc.acquire p rest → s.semaphore = 50 →
      step net s Label.main = none) := by
  have hi := h.inv
  have h1 : running s = s.semaphore := by
    rw [running, countP_running_eq _ hi.wf, hi.sem_eq]
  have h2 : unfinished s ≤ running s := by
    rw [running, unfinished, countP_running_eq _ hi.wf, countP_unfinished_eq _ hi.wf]
    exact count_wgDone_allOps_le _ hi.wf
  have h3 := hi.sem_le
  simp only [semCap] at h3
  refine ⟨by omega, by omega, h2, h1, ?_⟩
  intro p rest hm hsem
  simp [Sssocks.step, Sssocks.stepMain, hm, hsem, semCap]

set_option maxRecDepth 100000 in
theorem C4_witness :
    Reachable stressNet stressBody stressState ∧
    stressState.workers.length = 50 ∧ stressState.main.toVisit = 10 ∧
    (unfinished stressState ≤ 50 ∧ running stressState ≤ 50 ∧
      unfinished stressState ≤ running stressState ∧ running stressState = stressState.semaphore ∧
      (∀ p rest, stressState.main = MainPc.acquire p rest → stressState.semaphore = 50 →
        step stressNet stressState Label.main = none)) :=
  ⟨⟨List.replicate 101 Label.main, by decide⟩, by decide, by decide,
    C4_at_most_50_in_flight stressNet stressBody stressState
      ⟨List.replicate 101 Label.main, by decide⟩⟩

/-! ## Sends on the result channel -/

theorem emitted_length_pos_of_mem {ops : List Op} {v : String} (h : Op.send v ∈ ops) :
    0 < (emitted ops).length := by
  apply List.length_pos_of_mem (a := v)
  exact List.mem_filterMap.mpr ⟨Op.send v, h, rfl⟩

theorem Inv.count_wgDone_zero_of_closed {net : Nat → String → GetResult} {body : String}
    {s : VState} (hi : Inv net body s) (hc : s.closed = true) :
    s.wg = 0 ∧ (allOps s.workers).count Op.wgDone = 0 := by
  have h1 := hi.woken_wg (Or.inr (hi.closed_iff.mp hc))
  have h2 := hi.wg_eq
  omega

/-- A goroutine about to send finds the channel open and a free slot in its buffer. -/
theorem Inv.send_enabled {net : Nat → String → GetResult} {body : String} {s : VState}
    (hi : Inv net body s) {i : Nat} {v : String} {tl : List Op}
    (hw : s.workers[i]? = some (Op.send v :: tl)) :
    s.closed = false ∧ s.results.length < s.resultsCap := by
  have hmem : Op.send v ∈ allOps s.workers := mem_allOps_of_getElem? hw
  have hpos := emitted_length_pos_of_mem hmem
  have hle := emitted_allOps_le _ hi.wf
  constructor
  · cases hc : s.closed with
    | false => rfl
    | true =>
      have := (hi.count_wgDone_zero_of_closed hc).2
      omega
  · have h1 := hi.sent_le
    have h2 := hi.results_le
    have h3 := hi.cap_ge
    omega

/-! ## The gateway -/

/-- C6: with an empty pool `handleConnection` logs that no proxy is available and returns,
its deferred call closing the inbound connection: no SOCKS5 dialer is created, no target is
dialed, neither copy loop is started, and no later step of the session exists, so no byte
is copied in either direction. -/
theorem C6_empty_pool_closes (env : ConnEnv) :
    handleConnection env [] = Session.aborted [HEv.log LogMsg.noAvailableProxy] ∧
    (handleConnection env []).trace = [HEv.log LogMsg.noAvailableProxy, HEv.closeConn] ∧
    (∀ ev ∈ (handleConnection env []).trace, ev.isTraffic = false) ∧
    (handleConnection env []).connOpen = false ∧
    (handleConnection env []).returned = true ∧
    (∀ l, relayStep (handleConnection env []) l = none) := by
  have h : handleConnection env [] = Session.aborted [HEv.log LogMsg.noAvailableProxy] := by
    simp [handleConnection, sampleOne]
  rw [h]
  refine ⟨rfl, rfl, ?_, rfl, rfl, ?_⟩
  · intro ev hev
    simp [Session.aborted] at hev
    rcases hev with e | e <;> subst e <;> rfl
  · intro l
    cases l <;> simp [relayStep, Session.aborted]

/-- The session `handleConnection` sets up for a stored row that splits into two parts. -/
theorem handleConnection_of_two_parts (env : ConnEnv) (pool : List String) (row : String)
    (hrow : sampleOne pool env.rand = some row) (h2 : (stringsSplit row ':').length = 2) :
    ∃ evs, (handleConnection env pool).trace = HEv.socks5 row :: evs ∧
      HEv.log LogMsg.invalidProxyFormat ∉ evs ∧ ∀ addr, HEv.socks5 addr ∉ evs := by
  obtain ⟨host, port, hs, hj, -, -⟩ := stringsSplit_two row h2
  have haddr : (stringsSplit row ':').getD 0 "" ++ ":" ++ (stringsSplit row ':').getD 1 "" = row := by
    rw [hs]
    simpa using hj
  unfold handleConnection
  simp only [hrow, h2, ne_eq, not_true_eq_false, if_false, haddr]
  by_cases h1 : env.socks5Ok row = false
  · simp [h1, Session.aborted]
  · by_cases h3 : env.dialOk row env.remoteAddr = false
    · simp [h1, h3, Session.aborted]
    · simp [h1, h3]

/-- Either `handleConnection` gives up and returns, or both copy loops are running. -/
theorem handleConnection_cases (env : ConnEnv) (pool : List String) :
    (∃ evs, handleConnection env pool = Session.aborted evs) ∨
    (∃ addr, handleConnection env pool =
      { trace := [HEv.socks5 addr, HEv.dial env.remoteAddr]
        upRunning := true
        downRunning := true
        returned := false
        connOpen := true
        targetOpen := true }) := by
  unfold handleConnection
  cases sampleOne pool env.rand with
  | none => exact Or.inl ⟨_, rfl⟩
  | some proxy =>
    dsimp only
    by_cases h2 : (stringsSplit proxy ':').length ≠ 2
    · rw [if_pos h2]
      exact Or.inl ⟨_, rfl⟩
    · rw [if_neg h2]
      split
      · exact Or.inl ⟨_, rfl⟩
      · split
        · exact Or.inl ⟨_, rfl⟩
        · exact Or.inr ⟨_, rfl⟩

theorem relayRun_invariant (ls : List RelayLabel) :
    ∀ s0 s : Session,
      ((s0.downRunning = true → s0.returned = false ∧ s0.connOpen = true ∧ s0.targetOpen = true) ∧
        (s0.downRunning = false →
          s0.returned = true ∧ s0.connOpen = false ∧ s0.targetOpen = false)) →
      relayRun s0 ls = some s →
      (s.downRunning = true → s.returned = false ∧ s.connOpen = true ∧ s.targetOpen = true) ∧
      (s.downRunning = false → s.returned = true ∧ s.connOpen = false ∧ s.targetOpen = false) := by
  induction ls with
  | nil =>
    intro s0 s h0 hs
    simp only [relayRun, Option.some.injEq] at hs
    exact hs ▸ h0
  | cons l ls ih =>
    intro s0 s h0 hs
    simp only [relayRun] at hs
    cases hst : relayStep s0 l with
    | none => simp [hst] at hs
    | some u =>
      rw [hst] at hs
      refine ih u s ?_ hs
      cases l <;> simp only [relayStep] at hst <;> split at hst <;>
        simp only [Option.some.injEq, reduceCtorEq] at hst <;> subst hst <;> simp_all

/-- The property every relay session keeps: `handleConnection` is inside its own copy loop
with both connections open, or it has returned and both are closed. -/
theorem relay_invariant (env : ConnEnv) (pool : List String) (ls : List RelayLabel)
    (s : Session) (hs : relayRun (handleConnection env pool) ls = some s) :
    (s.downRunning = true → s.returned = false ∧ s.connOpen = true ∧ s.targetOpen = true) ∧
    (s.downRunning = false → s.returned = true ∧ s.connOpen = false ∧ s.targetOpen = false) := by
  refine relayRun_invariant ls _ s ?_ hs
  rcases handleConnection_cases env pool with ⟨evs, h⟩ | ⟨addr, h⟩ <;> rw [h] <;>
    simp [Session.aborted]

/-- C7 as stated fails: after the inbound-to-outbound copy loop has terminated at EOF the
session has not ended, both connections are open, and bytes still flow from the tunnel to
the inbound connection. -/
theorem C7_counterexample :
    relayRun (handleConnection envOk ["198.51.100.4:1080"]) [RelayLabel.upEnds false] =
      some { trace := [HEv.socks5 "198.51.100.4:1080", HEv.dial "10.0.0.7:40312"]
             upRunning := false
             downRunning := true
             returned := false
             connOpen := true
             targetOpen := true } ∧
    ¬ endsWhenEitherLoopEnds
      { trace := [HEv.socks5 "198.51.100.4:1080", HEv.dial "10.0.0.7:40312"]
        upRunning := false
        downRunning := true
        returned := false
        connOpen := true
        targetOpen := true } ∧
    (relayRun (handleConnection envOk ["198.51.100.4:1080"])
      [RelayLabel.upEnds false, RelayLabel.downCopy 512]).isSome = true := by
  refine ⟨by decide, ?_, by decide⟩
  intro h
  have := h (Or.inl rfl)
  simp at this

/-- C7, amended: in every relay session, and so in every one whose outbound tunnel was
established, the session ends
and both connections are closed exactly when the outbound-to-inbound copy loop, the one
`handleConnection` itself runs, terminates by EOF or by error; until then the handler has
not returned and both connections are open, and the termination of the inbound-to-outbound
loop changes nothing but that loop and the log. -/
theorem C7_session_ends_with_handler_loop (env : ConnEnv) (pool : List String)
    (ls : List RelayLabel) (s : Session)
    (hs : relayRun (handleConnection env pool) ls = some s) :
    (s.downRunning = false → s.returned = true ∧ s.connOpen = false ∧ s.targetOpen = false) ∧
    (s.downRunning = true → s.returned = false ∧ s.connOpen = true ∧ s.targetOpen = true) ∧
    (∀ failed t, relayStep s (RelayLabel.downEnds failed) = some t →
      t.returned = true ∧ t.connOpen = false ∧ t.targetOpen = false ∧
      ∃ evs, t.trace = evs ++ [HEv.closeTarget, HEv.closeConn]) ∧
    (∀ failed t, relayStep s (RelayLabel.upEnds failed) = some t →
      t.returned = s.returned ∧ t.connOpen = s.connOpen ∧ t.targetOpen = s.targetOpen ∧
      t.downRunning = s.downRunning) := by
  obtain ⟨h1, h2⟩ := relay_invariant env pool ls s hs
  refine ⟨h2, h1, ?_, ?_⟩
  · intro failed t ht
    simp only [relayStep] at ht
    split at ht
    · simp only [Option.some.injEq] at ht
      subst ht
      exact ⟨rfl, rfl, rfl, _, rfl⟩
    · simp at ht
  · intro failed t ht
    simp only [relayStep] at ht
    split at ht
    · simp only [Option.some.injEq] at ht
      subst ht
      exact ⟨rfl, rfl, rfl, rfl⟩
    · simp at ht

/-! ## What ends up in the pool -/

theorem Inv.pool_two_parts {net : Nat → String → GetResult} {body : String} {s : VState}
    (hi : Inv net body s) {row : String} (hrow : row ∈ s.pool) :
    (stringsSplit row ':').length = 2 := by
  apply hi.two_parts row
  right
  left
  rw [hi.pool_eq] at hrow
  obtain ⟨l, hl, hs⟩ := List.mem_filterMap.mp hrow
  refine List.mem_map.mpr ⟨l, hl, ?_⟩
  cases l <;> simp [LogLine.stored?, LogLine.row] at hs ⊢
  exact hs

/-- C10: every row the validation phase has inserted is a non-empty string that splits on
`':'` into exactly two parts which, joined by `':'`, give the row back.  Hence, on a pool
filled by the validation phase, `handleConnection` never logs "Invalid proxy format", and
when a row is drawn the first thing it does is to create the SOCKS5 dialer for exactly
that row, the only dialer it creates. -/
theorem C10_pool_rows_split_in_two (net : Nat → String → GetResult) (body : String)
    (s : VState) (h : Reachable net body s) :
    (∀ row ∈ s.pool, row ≠ "" ∧
      ∃ host port, stringsSplit row ':' = [host, port] ∧ host ++ ":" ++ port = row) ∧
    (∀ env : ConnEnv,
      HEv.log LogMsg.invalidProxyFormat ∉ (handleConnection env s.pool).trace ∧
      ∀ row, sampleOne s.pool env.rand = some row →
        (handleConnection env s.pool).trace.head? = some (HEv.socks5 row) ∧
        ∀ addr, HEv.socks5 addr ∈ (handleConnection env s.pool).trace → addr = row) := by
  have hi := h.inv
  constructor
  · intro row hrow
    have h2 := hi.pool_two_parts hrow
    obtain ⟨host, port, hs, hj, -, -⟩ := stringsSplit_two row h2
    exact ⟨two_parts_ne_empty h2, host, port, hs, hj⟩
  · intro env
    have key : ∀ row, sampleOne s.pool env.rand = some row →
        ∃ evs, (handleConnection env s.pool).trace = HEv.socks5 row :: evs ∧
          HEv.log LogMsg.invalidProxyFormat ∉ evs ∧ ∀ addr, HEv.socks5 addr ∉ evs := by
      intro row hrow
      exact handleConnection_of_two_parts env s.pool row hrow
        (hi.pool_two_parts (List.getElem?_mem hrow))
    constructor
    · cases hsample : sampleOne s.pool env.rand with
      | none => simp [handleConnection, hsample, Session.aborted]
      | some row =>
        obtain ⟨evs, he, hno, -⟩ := key row hsample
        rw [he]
        simpa using hno
    · intro row hrow
      obtain ⟨evs, he, -, hno⟩ := key row hrow
      rw [he]
      refine ⟨rfl, ?_⟩
      intro addr hmem
      rcases List.mem_cons.mp hmem with e | e
      · injection e
      · exact absurd e (hno addr)

theorem logLines_split (ls : List LogLine) :
    (ls.filterMap LogLine.stored? : Multiset String) + (ls.filterMap LogLine.failed? : Multiset String) =
      (ls.map LogLine.row : Multiset String) := by
  induction ls with
  | nil => rfl
  | cons l ls ih =>
    cases l <;>
      simp only [List.filterMap_cons, LogLine.stored?, LogLine.failed?, List.map_cons,
        LogLine.row, ← Multiset.cons_coe, Multiset.cons_add, Multiset.add_cons, ih]

/-- When the validation phase is over, every passing candidate has been through exactly
one `INSERT`, and the pool holds those that succeeded. -/
theorem Inv.pool_at_serve {net : Nat → String → GetResult} {body : String} {s : VState}
    (hi : Inv net body s) (hm : s.main = MainPc.serve) :
    (s.pool : Multiset String) + (s.stdout.filterMap LogLine.failed? : Multiset String) =
      (passing net 0 (stringsSplit body '\n') : Multiset String) := by
  obtain ⟨hc, hr⟩ := hi.serve_done hm
  have h0 := (hi.count_wgDone_zero_of_closed hc).2
  have h1 := emitted_allOps_le _ hi.wf
  have h2 : emitted (allOps s.workers) = [] := List.length_eq_zero.mp (by omega)
  have hb := hi.bag_eq
  simp only [VState.bag, hm, hr, h2, MainPc.inserting, MainPc.upcoming, Multiset.coe_nil,
    add_zero] at hb
  rw [hi.pool_eq, logLines_split, hb]

/-! ## The validation phase comes to an end -/

theorem weight_allOps_set (ws : List (List Op)) (i : Nat) (op : Op) (tl : List Op)
    (h : ws[i]? = some (op :: tl)) :
    ((allOps ws).map Op.weight).sum = op.weight + ((allOps (ws.set i tl)).map Op.weight).sum := by
  rw [((allOps_set_perm ws i op tl h).map Op.weight).sum_eq]
  simp

theorem weight_goroutine_le (get : String → GetResult) (p : String) :
    ((goroutine get p).map Op.weight).sum ≤ 8 := by
  rcases goroutine_cases get p with h | ⟨-, h | h⟩ <;> rw [h] <;> simp [Op.weight]

/-- Every step makes the measure smaller: no schedule is longer than the measure of the
state it starts from. -/
theorem step_measure {net : Nat → String → GetResult} {s t : VState} {l : Label}
    (hs : step net s l = some t) : t.measure < s.measure := by
  cases l with
  | main =>
    simp only [Sssocks.step, Sssocks.stepMain] at hs
    split at hs
    next hm =>
      simp only [Option.some.injEq] at hs
      subst hs
      have : s.closer.weight ≤ 2 := by cases s.closer <;> simp [CloserPc.weight]
      simp only [VState.measure, hm, MainPc.weight, CloserPc.weight, List.length_nil]
      omega
    next p rest hm =>
      split at hs <;> simp only [Option.some.injEq] at hs <;> subst hs <;>
        simp only [VState.measure, hm, MainPc.weight, List.length_cons] <;> omega
    next p rest hm =>
      split at hs
      · simp only [Option.some.injEq] at hs
        subst hs
        have := weight_goroutine_le (net s.workers.length) p
        simp only [VState.measure, hm, MainPc.weight, allOps_append, List.map_append,
          List.sum_append]
        omega
      · simp at hs
    next hm =>
      split at hs
      next v vs hr =>
        simp only [Option.some.injEq] at hs
        subst hs
        by_cases hv : v = "" <;>
          simp only [VState.measure, hm, hr, hv, MainPc.weight, List.length_cons, ne_eq,
            not_true_eq_false, not_false_eq_true, if_true, if_false] <;> omega
      next hr =>
        split at hs
        · simp only [Option.some.injEq] at hs
          subst hs
          simp only [VState.measure, hm, MainPc.weight]
          omega
        · simp at hs
    next => simp at hs
    next => simp at hs
  | insert ok =>
    simp only [Sssocks.step, Sssocks.stepInsert] at hs
    split at hs
    next v hm =>
      split at hs <;> simp only [Option.some.injEq] at hs <;> subst hs <;>
        simp only [VState.measure, hm, MainPc.weight] <;> omega
    next => simp at hs
  | worker i =>
    simp only [Sssocks.step, Sssocks.stepWorker] at hs
    split at hs
    next op tl hw =>
      have hsum := weight_allOps_set _ _ _ _ hw
      split at hs
      next v =>
        split at hs
        · simp only [Option.some.injEq] at hs
          subst hs
          simp only [VState.measure, hsum, Op.weight, List.length_append, List.length_singleton]
          omega
        · simp at hs
      next =>
        split at hs
        · simp only [Option.some.injEq] at hs
          subst hs
          simp only [VState.measure, hsum, Op.weight]
          omega
        · simp at hs
      next =>
        split at hs
        · simp only [Option.some.injEq] at hs
          subst hs
          simp only [VState.measure, hsum, Op.weight]
          omega
        · simp at hs
      next =>
        simp only [Option.some.injEq] at hs
        subst hs
        have : 1 ≤ op.weight := by cases op <;> simp [Op.weight]
        simp only [VState.measure, hsum]
        omega
    next => simp at hs
  | closer =>
    simp only [Sssocks.step, Sssocks.stepCloser] at hs
    split at hs
    next hm =>
      split at hs
      · simp only [Option.some.injEq] at hs
        subst hs
        simp only [VState.measure, hm, CloserPc.weight]
        omega
      · simp at hs
    next hm =>
      split at hs
      · simp at hs
      · simp only [Option.some.injEq] at hs
        subst hs
        simp only [VState.measure, hm, CloserPc.weight]
        omega
    next => simp at hs

theorem exists_worker_of_count_pos (ws : List (List Op)) (x : Op)
    (h : 0 < (allOps ws).count x) :
    ∃ (i : Nat) (op : Op) (tl : List Op), ws[i]? = some (op :: tl) := by
  induction ws with
  | nil => simp [allOps] at h
  | cons w ws ih =>
    cases w with
    | nil =>
      obtain ⟨i, op, tl, hi⟩ := ih (by simpa [allOps] using h)
      exact ⟨i + 1, op, tl, by simpa using hi⟩
    | cons op tl => exact ⟨0, op, tl, by simp⟩

/-- A goroutine that has not exited can always perform its next operation. -/
theorem Inv.worker_enabled {net : Nat → String → GetResult} {body : String} {s : VState}
    (hi : Inv net body s) {i : Nat} {op : Op} {tl : List Op}
    (hw : s.workers[i]? = some (op :: tl)) :
    ∃ t, Sssocks.step net s (Label.worker i) = some t := by
  have hmem : op ∈ allOps s.workers := mem_allOps_of_getElem? hw
  cases op with
  | send v =>
    have he := hi.send_enabled hw
    exact Option.isSome_iff_exists.mp (by simp [Sssocks.step, Sssocks.stepWorker, hw, he.1, he.2])
  | wgDone =>
    have h1 := hi.wg_eq
    have h2 : 0 < (allOps s.workers).count Op.wgDone := List.count_pos_iff.mpr hmem
    have h3 : 0 < s.wg := by omega
    exact Option.isSome_iff_exists.mp (by simp [Sssocks.step, Sssocks.stepWorker, hw, h3])
  | semRelease =>
    have h1 := hi.sem_eq
    have h2 : 0 < (allOps s.workers).count Op.semRelease := List.count_pos_iff.mpr hmem
    have h3 : 0 < s.semaphore := by omega
    exact Option.isSome_iff_exists.mp (by simp [Sssocks.step, Sssocks.stepWorker, hw, h3])
  | newClient a =>
    exact Option.isSome_iff_exists.mp (by simp [Sssocks.step, Sssocks.stepWorker, hw])
  | httpGet u => exact Option.isSome_iff_exists.mp (by simp [Sssocks.step, Sssocks.stepWorker, hw])
  | closeBody => exact Option.isSome_iff_exists.mp (by simp [Sssocks.step, Sssocks.stepWorker, hw])

theorem exists_step_of_isSome {net : Nat → String → GetResult} {s : VState} {l : Label}
    (h : (step net s l).isSome = true) (b : Bool) (hl : ∀ ok, l = Label.insert ok → ok = b) :
    ∃ l t, step net s l = some t ∧ ∀ ok, l = Label.insert ok → ok = b := by
  obtain ⟨t, ht⟩ := Option.isSome_iff_exists.mp h
  exact ⟨l, t, ht, hl⟩

/-- No deadlock: until the validation phase is over some goroutine can move, and when the
next operation is the `INSERT` it can move with either outcome. -/
theorem Inv.progress {net : Nat → String → GetResult} {body : String} {s : VState}
    (hi : Inv net body s) (hm : s.main ≠ MainPc.serve) (b : Bool) :
    ∃ l t, Sssocks.step net s l = some t ∧ ∀ ok, l = Label.insert ok → ok = b := by
  cases hmain : s.main with
  | serve => exact absurd hmain hm
  | launch rest =>
    cases rest with
    | nil => exact exists_step_of_isSome (l := Label.main)
               (by simp [Sssocks.step, Sssocks.stepMain, hmain]) b (by simp)
    | cons p rest =>
      by_cases hp : p = ""
      · exact exists_step_of_isSome (l := Label.main)
          (by simp [Sssocks.step, Sssocks.stepMain, hmain, hp]) b (by simp)
      · exact exists_step_of_isSome (l := Label.main)
          (by simp [Sssocks.step, Sssocks.stepMain, hmain, hp]) b (by simp)
  | acquire p rest =>
    by_cases hsem : s.semaphore < semCap
    · exact exists_step_of_isSome (l := Label.main)
        (by simp [Sssocks.step, Sssocks.stepMain, hmain, hsem]) b (by simp)
    · have h1 := hi.sem_eq
      have h2 : 0 < (allOps s.workers).count Op.semRelease := by
        simp only [semCap] at hsem
        omega
      obtain ⟨i, op, tl, hw⟩ := exists_worker_of_count_pos _ _ h2
      obtain ⟨t, ht⟩ := hi.worker_enabled hw
      exact ⟨Label.worker i, t, ht, by simp⟩
  | insert v =>
    refine exists_step_of_isSome (s := s) (l := Label.insert b) ?_ b ?_
    · cases b <;> simp [Sssocks.step, Sssocks.stepInsert, hmain]
    · intro ok hok
      injection hok with e
      exact e.symm
  | recv =>
    cases hr : s.results with
    | cons v vs =>
      exact exists_step_of_isSome (l := Label.main)
        (by simp [Sssocks.step, Sssocks.stepMain, hmain, hr]) b (by simp)
    | nil =>
      cases hc : s.closed with
      | true =>
        exact exists_step_of_isSome (l := Label.main)
          (by simp [Sssocks.step, Sssocks.stepMain, hmain, hr, hc]) b (by simp)
      | false =>
        have hnf : s.closer ≠ CloserPc.finished := by
          intro e
          have := hi.closed_iff.mpr e
          simp [hc] at this
        have hns : s.closer ≠ CloserPc.notStarted := by
          intro e
          have := hi.closer_started.mp e
          simp [hmain, MainPc.launching] at this
        cases hcl : s.closer with
        | notStarted => exact absurd hcl hns
        | finished => exact absurd hcl hnf
        | woken =>
          exact exists_step_of_isSome (l := Label.closer)
            (by simp [Sssocks.step, Sssocks.stepCloser, hcl, hc]) b (by simp)
        | waiting =>
          by_cases hwg : s.wg = 0
          · exact exists_step_of_isSome (l := Label.closer)
              (by simp [Sssocks.step, Sssocks.stepCloser, hcl, hwg]) b (by simp)
          · have h1 := hi.wg_eq
            simp only [hmain, MainPc.acquiring] at h1
            have h2 : 0 < (allOps s.workers).count Op.wgDone := by omega
            obtain ⟨i, op, tl, hw⟩ := exists_worker_of_count_pos _ _ h2
            obtain ⟨t, ht⟩ := hi.worker_enabled hw
            exact ⟨Label.worker i, t, ht, by simp⟩

theorem step_follows {net : Nat → String → GetResult} {s t : VState} {l : Label}
    (pat : Nat → Bool) (hs : step net s l = some t)
    (hl : ∀ ok, l = Label.insert ok → ok = pat s.stdout.length)
    (hf : followsPattern pat s.stdout) : followsPattern pat t.stdout := by
  cases l with
  | insert ok =>
    have hok := hl ok rfl
    simp only [Sssocks.step, Sssocks.stepInsert] at hs
    split at hs
    next v hm =>
      unfold followsPattern at hf ⊢
      split at hs <;> simp only [Option.some.injEq] at hs <;> subst hs <;>
        simp_all [List.range_succ, LogLine.stored?]
    next => simp at hs
  | main =>
    have : t.stdout = s.stdout := by
      simp only [Sssocks.step, Sssocks.stepMain] at hs
      repeat' split at hs
      all_goals first
        | (simp only [Option.some.injEq] at hs; subst hs; rfl)
        | simp at hs
    rw [this]
    exact hf
  | worker i =>
    have : t.stdout = s.stdout := by
      simp only [Sssocks.step, Sssocks.stepWorker] at hs
      repeat' split at hs
      all_goals first
        | (simp only [Option.some.injEq] at hs; subst hs; rfl)
        | simp at hs
    rw [this]
    exact hf
  | closer =>
    have : t.stdout = s.stdout := by
      simp only [Sssocks.step, Sssocks.stepCloser] at hs
      repeat' split at hs
      all_goals first
        | (simp only [Option.some.injEq] at hs; subst hs; rfl)
        | simp at hs
    rw [this]
    exact hf

/-- From every state that satisfies the invariant some schedule leads to the end of the
validation phase, with the `INSERT`s succeeding and failing as `pat` prescribes. -/
theorem exists_run_to_serve (net : Nat → String → GetResult) (body : String)
    (pat : Nat → Bool) :
    ∀ (n : Nat) (s : VState), s.measure ≤ n → Inv net body s → followsPattern pat s.stdout →
      ∃ ls t, run net s ls = some t ∧ t.main = MainPc.serve ∧ followsPattern pat t.stdout := by
  intro n
  induction n with
  | zero =>
    intro s hn hi hf
    by_cases hm : s.main = MainPc.serve
    · exact ⟨[], s, rfl, hm, hf⟩
    · obtain ⟨l, t, hst, -⟩ := hi.progress hm true
      have := step_measure hst
      omega
  | succ n ih =>
    intro s hn hi hf
    by_cases hm : s.main = MainPc.serve
    · exact ⟨[], s, rfl, hm, hf⟩
    · obtain ⟨l, t, hst, hl⟩ := hi.progress hm (pat s.stdout.length)
      have hlt := step_measure hst
      obtain ⟨ls, u, hr, hu, hfu⟩ :=
        ih t (by omega) (hi.step l hst) (step_follows pat hst hl hf)
      exact ⟨l :: ls, u, by simp [Sssocks.run, hst, hr], hu, hfu⟩

theorem followsPattern_self (out : List LogLine) :
    followsPattern (fun k => (out.map (fun l => l.stored?.isSome)).getD k true) out := by
  unfold followsPattern
  apply List.ext_getElem
  · simp
  · intro n h1 h2
    simp at h1
    simp [h1]

/-- No schedule is longer than the measure of the state it starts from. -/
theorem run_length_le {net : Nat → String → GetResult} (ls : List Label) :
    ∀ {s t : VState}, run net s ls = some t → ls.length + t.measure ≤ s.measure := by
  induction ls with
  | nil =>
    intro s t hr
    simp only [Sssocks.run, Option.some.injEq] at hr
    subst hr
    simp
  | cons l ls ih =>
    intro s t hr
    simp only [Sssocks.run] at hr
    cases hst : Sssocks.step net s l with
    | none => simp [hst] at hr
    | some u =>
      rw [hst] at hr
      have h1 := ih hr
      have h2 := step_measure hst
      simp only [List.length_cons]
      omega

/-! ## Closing the result channel, and its buffer -/

/-- C8: `close(results)` is executed at most once, and the channel is closed exactly when it
has been executed once.  Once the channel is closed the launcher loop is over, no launched
test is unfinished, the `WaitGroup` counter is zero and no goroutine has a send left to
perform; in every goroutine a pending send comes with a pending `wg.Done()`, which
`testProxy` performs last.  When the validation phase is over the channel has been closed
once, and from every reachable state some schedule leads there. -/
theorem C8_closed_once_after_all_tests (net : Nat → String → GetResult) (body : String)
    (s : VState) (h : Reachable net body s) :
    s.closes ≤ 1 ∧ (s.closed = true ↔ s.closes = 1) ∧
    (s.closed = true →
      unfinished s = 0 ∧ s.wg = 0 ∧ s.main.launching = false ∧
      ∀ w ∈ s.workers, ∀ v, Op.send v ∉ w) ∧
    (∀ w ∈ s.workers, ∀ v, Op.send v ∈ w → Op.wgDone ∈ w) ∧
    (∀ get p, ∃ pre, testProxy get p = pre ++ [Op.wgDone] ∧ Op.wgDone ∉ pre) ∧
    (s.main = MainPc.serve → s.closes = 1) ∧
    (∃ ls t, run net s ls = some t ∧ t.main = MainPc.serve ∧ t.closed = true ∧ t.closes = 1) := by
  have hi := h.inv
  have hcl := hi.closes_eq
  refine ⟨?_, ?_, ?_, ?_, ?_, ?_, ?_⟩
  · rw [hcl]
    split <;> omega
  · rw [hcl]
    cases s.closed <;> simp
  · intro hc
    obtain ⟨h1, h2⟩ := hi.count_wgDone_zero_of_closed hc
    refine ⟨by rw [unfinished, countP_unfinished_eq _ hi.wf, h2], h1, ?_, ?_⟩
    · have hne : s.closer ≠ CloserPc.notStarted := by
        rw [hi.closed_iff.mp hc]
        decide
      cases hl : s.main.launching with
      | false => rfl
      | true => exact absurd (hi.closer_started.mpr hl) hne
    · intro w hw v hv
      have h3 := (hi.wf w hw).emitted_le
      have h4 := emitted_length_pos_of_mem hv
      have h5 : w.count Op.wgDone = 0 := by
        rw [List.count_eq_zero]
        intro hmem
        exact absurd (mem_allOps_of_mem hw hmem) (List.count_eq_zero.mp h2)
      omega
  · intro w hw v hv
    have h3 := (hi.wf w hw).emitted_le
    have h4 := emitted_length_pos_of_mem hv
    exact List.count_pos_iff.mp (by omega)
  · intro get p
    by_cases hl : (stringsSplit p ':').length = 2
    · rw [testProxy_of_length_eq get p hl]
      refine ⟨_, rfl, ?_⟩
      by_cases hg : get p = GetResult.response 200 <;> simp [hg]
    · rw [testProxy_of_length_ne get p hl]
      exact ⟨[], rfl, by simp⟩
  · intro hm
    rw [hcl, (hi.serve_done hm).1]
    rfl
  · obtain ⟨ls, t, hr, hm, -⟩ :=
      exists_run_to_serve net body _ s.measure s (Nat.le_refl _) hi (followsPattern_self s.stdout)
    have ht := Inv.run ls hi hr
    have hc := (ht.serve_done hm).1
    refine ⟨ls, t, hr, hm, hc, ?_⟩
    rw [ht.closes_eq, hc]
    rfl

/-- C9: the values sent on the result channel never outnumber the launched goroutines,
which never outnumber the newline-separated lines of the body, and that number of lines is
the capacity of the channel; the buffer holds at most the values sent.  Hence a goroutine
whose next operation is the send always finds a free buffer slot on an open channel: its
step is enabled. -/
theorem C9_send_never_blocks (net : Nat → String → GetResult) (body : String) (s : VState)
    (h : Reachable net body s) :
    s.sent ≤ s.workers.length ∧
    s.workers.length ≤ (stringsSplit body '\n').length ∧
    s.resultsCap = (stringsSplit body '\n').length ∧
    s.results.length ≤ s.sent ∧
    (∀ i v tl, s.workers[i]? = some (Op.send v :: tl) →
      s.results.length < s.resultsCap ∧ (step net s (Label.worker i)).isSome = true) := by
  have hi := h.inv
  have h1 := hi.sent_le
  have h2 := hi.cap_ge
  have h3 := hi.cap_eq
  refine ⟨by omega, by omega, h3, hi.results_le, ?_⟩
  intro i v tl hw
  have he := hi.send_enabled hw
  refine ⟨he.2, ?_⟩
  simp [Sssocks.step, Sssocks.stepWorker, hw, he.1, he.2]

/-! ## The pool at the end of the validation phase -/

/-- C5: when the validation phase is over, the pool holds the rows whose `INSERT` was
reported successful, and the pool together with the rows whose `INSERT` failed is, as a
multiset, exactly the candidates that split into two parts and answered 200: every passing
candidate goes through one `INSERT`, whether or not earlier ones failed.  The phase does
come to an end: no schedule is longer than the measure of the initial state, a state in
which nothing can move is past the end of the phase, and for every pattern of `INSERT`
successes and failures some schedule reaches the end with that pattern.  In the end-to-end
example the pool is exactly `127.0.0.1:9999` when no `INSERT` fails. -/
theorem C5_pool_is_passing_and_inserted (net : Nat → String → GetResult) (body : String) :
    (∀ s, Reachable net body s → s.main = MainPc.serve →
      s.pool = s.stdout.filterMap LogLine.stored? ∧
      (s.pool : Multiset String) + (s.stdout.filterMap LogLine.failed? : Multiset String) =
        (passing net 0 (stringsSplit body '\n') : Multiset String)) ∧
    (∀ ls s, run net (init body) ls = some s → ls.length ≤ (init body).measure) ∧
    (∀ s, Reachable net body s → (∀ l, step net s l = none) → s.main = MainPc.serve) ∧
    (∀ pat : Nat → Bool, ∃ s, Reachable net body s ∧ s.main = MainPc.serve ∧
      followsPattern pat s.stdout) ∧
    (∀ s, Reachable exampleNet exampleBody s → s.main = MainPc.serve →
      s.stdout.filterMap LogLine.failed? = [] → s.pool = ["127.0.0.1:9999"]) := by
  refine ⟨?_, ?_, ?_, ?_, ?_⟩
  · intro s h hm
    exact ⟨h.inv.pool_eq, h.inv.pool_at_serve hm⟩
  · intro ls s hr
    have := run_length_le ls hr
    omega
  · intro s h hstuck
    by_cases hm : s.main = MainPc.serve
    · exact hm
    · obtain ⟨l, t, hst, -⟩ := h.inv.progress hm true
      rw [hstuck l] at hst
      simp at hst
  · intro pat
    obtain ⟨ls, t, hr, hm, hf⟩ :=
      exists_run_to_serve net body pat (init body).measure (init body) (Nat.le_refl _)
        (Inv.init net body) (by simp [followsPattern, Sssocks.init])
    exact ⟨t, ⟨ls, hr⟩, hm, hf⟩
  · intro s h hm hfail
    have h1 := h.inv.pool_at_serve hm
    have h2 : passing exampleNet 0 (stringsSplit exampleBody '\n') = ["127.0.0.1:9999"] := by
      decide
    rw [hfail, h2, Multiset.coe_nil, add_zero, Multiset.coe_eq_coe] at h1
    exact List.perm_singleton.mp h1

/-! ## The statements at concrete inputs -/

theorem C5_witness :
    exampleFinal.pool = exampleFinal.stdout.filterMap LogLine.stored? ∧
    (exampleFinal.pool : Multiset String) +
        (exampleFinal.stdout.filterMap LogLine.failed? : Multiset String) =
      (passing exampleNet 0 (stringsSplit exampleBody '\n') : Multiset String) :=
  (C5_pool_is_passing_and_inserted exampleNet exampleBody).1 exampleFinal
    ⟨exampleSchedule, by decide⟩ rfl

theorem C7_witness :
    relayRun (handleConnection envOk ["198.51.100.4:1080"])
        [RelayLabel.upCopy 64, RelayLabel.upEnds false, RelayLabel.downCopy 512,
          RelayLabel.downEnds true] = some relayFinal ∧
    relayFinal.returned = true ∧ relayFinal.connOpen = false ∧ relayFinal.targetOpen = false :=
  ⟨by decide,
    (C7_session_ends_with_handler_loop envOk ["198.51.100.4:1080"]
      [RelayLabel.upCopy 64, RelayLabel.upEnds false, RelayLabel.downCopy 512,
        RelayLabel.downEnds true] relayFinal (by decide)).1 rfl⟩

theorem C8_witness :
    Reachable exampleNet exampleBody exampleFinal ∧ exampleFinal.closed = true ∧
    exampleFinal.closes = 1 ∧ unfinished exampleFinal = 0 :=
  ⟨⟨exampleSchedule, by decide⟩, rfl,
    ((C8_closed_once_after_all_tests exampleNet exampleBody exampleFinal
      ⟨exampleSchedule, by decide⟩).2.1).mp rfl,
    ((C8_closed_once_after_all_tests exampleNet exampleBody exampleFinal
      ⟨exampleSchedule, by decide⟩).2.2.1 rfl).1⟩

theorem C9_witness :
    Reachable exampleNet exampleBody exampleSending ∧
    exampleSending.results.length < exampleSending.resultsCap ∧
    (step exampleNet exampleSending (Label.worker 0)).isSome = true :=
  ⟨⟨exampleSchedule.take 8, by decide⟩,
    (C9_send_never_blocks exampleNet exampleBody exampleSending
      ⟨exampleSchedule.take 8, by decide⟩).2.2.2.2 0 "127.0.0.1:9999"
      [Op.closeBody, Op.wgDone, Op.semRelease] rfl⟩

theorem C10_witness :
    Reachable exampleNet exampleBody exampleFinal ∧
    (handleConnection envOk exampleFinal.pool).trace.head? =
      some (HEv.socks5 "127.0.0.1:9999") :=
  ⟨⟨exampleSchedule, by decide⟩,
    (((C10_pool_rows_split_in_two exampleNet exampleBody exampleFinal
      ⟨exampleSchedule, by decide⟩).2 envOk).2 "127.0.0.1:9999" (by decide)).1⟩

end Sssocks
